import Mathlib

set_option autoImplicit false

/-! Verification of the mincaml compiler core: a shallow embedding of the
    type checker (src/type_check.rs) and of the code generator
    (src/codegen.rs), with theorems about unification, substitution
    normalization and code emission.  Recursive functions of the Rust
    source whose termination depends on invariants of the substitution
    environment are embedded with an explicit fuel parameter; a `none`
    result means the fuel was exhausted (the source would still be
    running, or would never stop). -/

/-- Modelled from the spec: binder identity (the `Var` type of the missing
    src/var.rs): a display name together with a unique id; `Var::builtin`
    creates a variable with uniq 0. -/
structure Var where
  name : String
  uniq : Nat
deriving DecidableEq, Repr

/-- Built-in variable (`Var::builtin(name)`). -/
def Var.builtin (n : String) : Var := ⟨n, 0⟩

/-- Source types (`Type` in src/type_check.rs); type variables (`TyVar`)
    are unique integers. -/
inductive Ty where
  | Unit
  | Bool
  | Int
  | Float
  | Fun (args : List Ty) (ret : Ty)
  | Tuple (args : List Ty)
  | Array (elem : Ty)
  | Var (v : Nat)

mutual
/-- Structural (boolean) equality of types. -/
def tyBeq : Ty → Ty → Bool
  | Ty.Unit, Ty.Unit => true
  | Ty.Bool, Ty.Bool => true
  | Ty.Int, Ty.Int => true
  | Ty.Float, Ty.Float => true
  | Ty.Fun a1 r1, Ty.Fun a2 r2 => tyBeqList a1 a2 && tyBeq r1 r2
  | Ty.Tuple a1, Ty.Tuple a2 => tyBeqList a1 a2
  | Ty.Array e1, Ty.Array e2 => tyBeq e1 e2
  | Ty.Var v1, Ty.Var v2 => v1 == v2
  | _, _ => false

/-- Structural equality of lists of types. -/
def tyBeqList : List Ty → List Ty → Bool
  | [], [] => true
  | t :: ts, u :: us => tyBeq t u && tyBeqList ts us
  | _, _ => false
end

/-- The boolean equality on types decides propositional equality. -/
theorem tyBeq_spec : ∀ n : Nat,
    (∀ a b : Ty, sizeOf a ≤ n → (tyBeq a b = true ↔ a = b)) ∧
    (∀ l1 l2 : List Ty, sizeOf l1 ≤ n → (tyBeqList l1 l2 = true ↔ l1 = l2)) := by
  intro n
  induction n with
  | zero =>
    constructor
    · intro a b hle
      cases a <;> simp at hle
    · intro l1 l2 hle
      cases l1 <;> simp at hle
  | succ n ih =>
    constructor
    · intro a b hle
      cases a <;> cases b
      case Fun.Fun a1 r1 a2 r2 =>
        have h0 : sizeOf a1 ≤ n ∧ sizeOf r1 ≤ n := by simp at hle; omega
        simp only [tyBeq, Bool.and_eq_true, Ty.Fun.injEq]
        rw [ih.2 a1 a2 h0.1, ih.1 r1 r2 h0.2]
      case Tuple.Tuple a1 a2 =>
        have h0 : sizeOf a1 ≤ n := by simp at hle; omega
        simp only [tyBeq, Ty.Tuple.injEq]
        rw [ih.2 a1 a2 h0]
      case Array.Array e1 e2 =>
        have h0 : sizeOf e1 ≤ n := by simp at hle; omega
        simp only [tyBeq, Ty.Array.injEq]
        rw [ih.1 e1 e2 h0]
      all_goals simp [tyBeq]
    · intro l1 l2 hle
      cases l1 with
      | nil => cases l2 <;> simp [tyBeqList]
      | cons t ts =>
        cases l2 with
        | nil => simp [tyBeqList]
        | cons u us =>
          have h0 : sizeOf t ≤ n ∧ sizeOf ts ≤ n := by simp at hle; omega
          simp only [tyBeqList, Bool.and_eq_true, List.cons.injEq]
          rw [ih.1 t u h0.1, ih.2 ts us h0.2]

instance : DecidableEq Ty := fun a b =>
  if h : tyBeq a b = true then isTrue (((tyBeq_spec (sizeOf a)).1 a b le_rfl).mp h)
  else isFalse (fun he => h (((tyBeq_spec (sizeOf a)).1 a b le_rfl).mpr he))

/-- Type checking errors (`TypeErr` in src/type_check.rs). -/
inductive TypeErr where
  | UnifyError (t1 t2 : Ty)
  | InfiniteType (t1 t2 : Ty)
  | UnboundVar (v : Var)
deriving DecidableEq

/-- The substitution environment (`SubstEnv = FxHashMap<TyVar, Type>`),
    modelled as an association list; `unify` only ever inserts bindings
    for unbound variables, so prepending a binding models `insert`. -/
abbrev Subst := List (Nat × Ty)

/-- Lookup of a type variable in the substitution (`subst.get(tyvar)`). -/
def lookupS : Subst → Nat → Option Ty
  | [], _ => none
  | (w, t) :: s, v => if w = v then some t else lookupS s v

/-- The function `deref_ty`: follow variable-to-type bindings until the
    first non-variable type or unbound variable.  Fuel bounds the length
    of the chain; the source loops without fuel and diverges on a cyclic
    substitution. -/
def derefTy (s : Subst) : Nat → Ty → Option Ty
  | fuel, t =>
    match t with
    | Ty.Var v =>
      match lookupS s v with
      | none => some t
      | some u =>
        match fuel with
        | 0 => none
        | fuel' + 1 => derefTy s fuel' u
    | _ => some t

mutual
/-- The function `occurs_check`: does variable `v` occur in `t`, looking
    through the substitution?  Fuel bounds the recursion depth. -/
def occursCheck (s : Subst) (v : Nat) : Nat → Ty → Option Bool
  | fuel, t =>
    match derefTy s fuel t with
    | none => none
    | some d =>
      match d with
      | Ty.Unit => some false
      | Ty.Bool => some false
      | Ty.Int => some false
      | Ty.Float => some false
      | Ty.Fun args ret =>
        match fuel with
        | 0 => none
        | fuel' + 1 =>
          match occursCheckList s v fuel' args with
          | none => none
          | some true => some true
          | some false => occursCheck s v fuel' ret
      | Ty.Tuple args =>
        match fuel with
        | 0 => none
        | fuel' + 1 => occursCheckList s v fuel' args
      | Ty.Array elem =>
        match fuel with
        | 0 => none
        | fuel' + 1 => occursCheck s v fuel' elem
      | Ty.Var w => some (w == v)

/-- Occurs check over a list of types (`args.iter().any(..)`), with
    short-circuiting at the first `true`. -/
def occursCheckList (s : Subst) (v : Nat) : Nat → List Ty → Option Bool
  | _, [] => some false
  | fuel, t :: ts =>
    match fuel with
    | 0 => none
    | fuel' + 1 =>
      match occursCheck s v fuel' t with
      | none => none
      | some true => some true
      | some false => occursCheckList s v fuel' ts
end

/-- Result of `unify`: the source mutates the substitution in place and
    returns `Result<(), TypeErr>`, so both outcomes carry the (possibly
    extended) substitution. -/
inductive URes where
  | ok (s : Subst)
  | err (s : Subst) (e : TypeErr)
deriving DecidableEq

/-- The substitution carried by a unification result. -/
def URes.subst : URes → Subst
  | .ok s => s
  | .err s _ => s

/-- The or-pattern arm `(Type::Var(var), ty) | (ty, Type::Var(var))` of
    `unify`: occurs-check `var` in `ty`, then either fail with
    `InfiniteType` (carrying the two dereferenced sides in order) or
    insert the binding `var` to `ty`. -/
def unifyVar (F : Nat) (s : Subst) (v : Nat) (d : Ty) (d1 d2 : Ty) : Option URes :=
  match occursCheck s v F d with
  | none => none
  | some true => some (.err s (.InfiniteType d1 d2))
  | some false => some (.ok ((v, d) :: s))

mutual
/-- The function `unify` from src/type_check.rs: dereference both sides,
    then match structurally; a variable against a different type inserts a
    binding after the occurs check.  Fuel bounds the recursion depth. -/
def unify : Nat → Subst → Ty → Ty → Option URes
  | 0, _, _, _ => none
  | fuel + 1, s, t1, t2 =>
    match derefTy s (fuel + 1) t1, derefTy s (fuel + 1) t2 with
    | some d1, some d2 =>
      match d1, d2 with
      | Ty.Unit, Ty.Unit => some (.ok s)
      | Ty.Bool, Ty.Bool => some (.ok s)
      | Ty.Int, Ty.Int => some (.ok s)
      | Ty.Float, Ty.Float => some (.ok s)
      | Ty.Fun args1 ret1, Ty.Fun args2 ret2 =>
        if args1.length ≠ args2.length then
          some (.err s (.UnifyError (Ty.Fun args1 ret1) (Ty.Fun args2 ret2)))
        else
          match unifyList fuel s args1 args2 with
          | none => none
          | some (.ok s') => unify fuel s' ret1 ret2
          | some r => some r
      | Ty.Var v1, Ty.Var v2 =>
        if v1 = v2 then some (.ok s)
        else unifyVar (fuel + 1) s v1 (Ty.Var v2) (Ty.Var v1) (Ty.Var v2)
      | Ty.Var v, d2' => unifyVar (fuel + 1) s v d2' (Ty.Var v) d2'
      | d1', Ty.Var v => unifyVar (fuel + 1) s v d1' d1' (Ty.Var v)
      | Ty.Tuple args1, Ty.Tuple args2 =>
        if args1.length ≠ args2.length then
          some (.err s (.UnifyError (Ty.Tuple args1) (Ty.Tuple args2)))
        else unifyList fuel s args1 args2
      | Ty.Array e1, Ty.Array e2 => unify fuel s e1 e2
      | _, _ => some (.err s (.UnifyError d1 d2))
    | _, _ => none

/-- Pairwise unification of zipped argument lists (the `for` loops in
    `unify`); stops at the first failure, as `?` does in the source. -/
def unifyList : Nat → Subst → List Ty → List Ty → Option URes
  | _, s, [], _ => some (.ok s)
  | _, s, _ :: _, [] => some (.ok s)
  | fuel, s, a :: ts1, b :: ts2 =>
    match fuel with
    | 0 => none
    | fuel' + 1 =>
      match unify fuel' s a b with
      | none => none
      | some (.ok s') => unifyList fuel' s' ts1 ts2
      | some r => some r
end

mutual
/-- Full application of the substitution to a type: like `deref_ty` but
    extended recursively through the type constructors, leaving unbound
    variables in place.  This is the specification-level fully
    dereferenced form of a type, used to state what a successful `unify`
    guarantees about its two arguments. -/
def resolveTy (s : Subst) : Nat → Ty → Option Ty
  | 0, _ => none
  | fuel + 1, t =>
    match t with
    | Ty.Var v =>
      match lookupS s v with
      | none => some t
      | some u => resolveTy s fuel u
    | Ty.Unit => some t
    | Ty.Bool => some t
    | Ty.Int => some t
    | Ty.Float => some t
    | Ty.Fun args ret =>
      match resolveList s fuel args, resolveTy s fuel ret with
      | some args', some ret' => some (Ty.Fun args' ret')
      | _, _ => none
    | Ty.Tuple args =>
      match resolveList s fuel args with
      | some args' => some (Ty.Tuple args')
      | none => none
    | Ty.Array elem =>
      match resolveTy s fuel elem with
      | some e' => some (Ty.Array e')
      | none => none

/-- Full application of the substitution to every type of a list. -/
def resolveList (s : Subst) : Nat → List Ty → Option (List Ty)
  | _, [] => some []
  | fuel, t :: ts =>
    match fuel with
    | 0 => none
    | fuel' + 1 =>
      match resolveTy s fuel' t, resolveList s fuel' ts with
      | some t', some ts' => some (t' :: ts')
      | _, _ => none
end

mutual
/-- The function `norm_ty`: normalize a type by recursively replacing
    every variable by its dereferenced substitution.  On a variable with
    no binding the source recurses forever (there is no defaulting to
    `Unit`), so for such a type every fuel is exhausted: divergence. -/
def normTy (s : Subst) : Nat → Ty → Option Ty
  | _, Ty.Unit => some Ty.Unit
  | _, Ty.Bool => some Ty.Bool
  | _, Ty.Int => some Ty.Int
  | _, Ty.Float => some Ty.Float
  | fuel, Ty.Fun args ret =>
    match fuel with
    | 0 => none
    | fuel' + 1 =>
      match normList s fuel' args, normTy s fuel' ret with
      | some args', some ret' => some (Ty.Fun args' ret')
      | _, _ => none
  | fuel, Ty.Tuple args =>
    match fuel with
    | 0 => none
    | fuel' + 1 =>
      match normList s fuel' args with
      | some args' => some (Ty.Tuple args')
      | none => none
  | fuel, Ty.Array elem =>
    match fuel with
    | 0 => none
    | fuel' + 1 =>
      match normTy s fuel' elem with
      | some e' => some (Ty.Array e')
      | none => none
  | fuel, Ty.Var v =>
    match fuel with
    | 0 => none
    | fuel' + 1 =>
      match derefTy s (fuel' + 1) (Ty.Var v) with
      | none => none
      | some d => normTy s fuel' d

/-- Normalization of a list of types (`args.into_iter().map(..)`). -/
def normList (s : Subst) : Nat → List Ty → Option (List Ty)
  | _, [] => some []
  | fuel, t :: ts =>
    match fuel with
    | 0 => none
    | fuel' + 1 =>
      match normTy s fuel' t, normList s fuel' ts with
      | some t', some ts' => some (t' :: ts')
      | _, _ => none
end

mutual
/-- A type is ground when it contains no `Var(_)` node. -/
def isGround : Ty → Bool
  | Ty.Unit => true
  | Ty.Bool => true
  | Ty.Int => true
  | Ty.Float => true
  | Ty.Fun args ret => isGroundList args && isGround ret
  | Ty.Tuple args => isGroundList args
  | Ty.Array elem => isGround elem
  | Ty.Var _ => false

/-- Groundness of every type of a list. -/
def isGroundList : List Ty → Bool
  | [] => true
  | t :: ts => isGround t && isGroundList ts
end

/-- Unfolding: dereferencing an unbound variable stops at the variable. -/
theorem derefTy_var_none {s : Subst} {v : Nat} (f : Nat) (h : lookupS s v = none) :
    derefTy s f (Ty.Var v) = some (Ty.Var v) := by
  rw [derefTy, h]

/-- Unfolding: dereferencing a bound variable with no fuel left. -/
theorem derefTy_var_some_zero {s : Subst} {v : Nat} {u : Ty} (h : lookupS s v = some u) :
    derefTy s 0 (Ty.Var v) = none := by
  rw [derefTy, h]

/-- Unfolding: dereferencing a bound variable follows the binding. -/
theorem derefTy_var_some_succ {s : Subst} {v : Nat} {u : Ty} (f : Nat)
    (h : lookupS s v = some u) :
    derefTy s (f + 1) (Ty.Var v) = derefTy s f u := by
  rw [derefTy, h]

/-- Unfolding: dereferencing a non-variable type is the identity. -/
theorem derefTy_nonvar {t : Ty} (s : Subst) (f : Nat) (h : ∀ v, t ≠ Ty.Var v) :
    derefTy s f t = some t := by
  cases t
  case Var v => exact absurd rfl (h v)
  all_goals simp [derefTy]

/-- Unfolding: lookup in an extended substitution. -/
theorem lookupS_cons (v : Nat) (d : Ty) (s : Subst) (w : Nat) :
    lookupS ((v, d) :: s) w = if v = w then some d else lookupS s w := rfl

/-- Unfolding: dereferencing `Unit` is the identity. -/
@[simp] theorem derefTy_unit (s : Subst) (f : Nat) : derefTy s f Ty.Unit = some Ty.Unit := by
  simp [derefTy]

/-- Unfolding: dereferencing `Bool` is the identity. -/
@[simp] theorem derefTy_bool (s : Subst) (f : Nat) : derefTy s f Ty.Bool = some Ty.Bool := by
  simp [derefTy]

/-- Unfolding: dereferencing `Int` is the identity. -/
@[simp] theorem derefTy_int (s : Subst) (f : Nat) : derefTy s f Ty.Int = some Ty.Int := by
  simp [derefTy]

/-- Unfolding: dereferencing `Float` is the identity. -/
@[simp] theorem derefTy_float (s : Subst) (f : Nat) : derefTy s f Ty.Float = some Ty.Float := by
  simp [derefTy]

/-- Unfolding: dereferencing a function type is the identity. -/
@[simp] theorem derefTy_fun (s : Subst) (f : Nat) (args : List Ty) (ret : Ty) :
    derefTy s f (Ty.Fun args ret) = some (Ty.Fun args ret) := by
  simp [derefTy]

/-- Unfolding: dereferencing a tuple type is the identity. -/
@[simp] theorem derefTy_tuple (s : Subst) (f : Nat) (args : List Ty) :
    derefTy s f (Ty.Tuple args) = some (Ty.Tuple args) := by
  simp [derefTy]

/-- Unfolding: dereferencing an array type is the identity. -/
@[simp] theorem derefTy_array (s : Subst) (f : Nat) (elem : Ty) :
    derefTy s f (Ty.Array elem) = some (Ty.Array elem) := by
  simp [derefTy]

/-- Dereferencing is monotone in the fuel. -/
theorem derefTy_mono {s : Subst} : ∀ (f : Nat) {t r : Ty}, derefTy s f t = some r →
    ∀ k : Nat, derefTy s (f + k) t = some r := by
  intro f
  induction f with
  | zero =>
    intro t r h k
    cases t
    case Var v =>
      cases hl : lookupS s v with
      | none =>
        rw [derefTy_var_none 0 hl] at h
        cases h
        rw [derefTy_var_none _ hl]
      | some u =>
        rw [derefTy_var_some_zero hl] at h
        cases h
    all_goals (simp at h; try subst h; try simp)
  | succ f ih =>
    intro t r h k
    cases t
    case Var v =>
      cases hl : lookupS s v with
      | none =>
        rw [derefTy_var_none _ hl] at h
        cases h
        rw [derefTy_var_none _ hl]
      | some u =>
        rw [derefTy_var_some_succ f hl] at h
        have harith : f + 1 + k = f + k + 1 := by omega
        rw [harith, derefTy_var_some_succ (f + k) hl]
        exact ih h k
    all_goals (simp at h; try subst h; try simp)

/-- Dereferencing with at least as much fuel gives the same root. -/
theorem derefTy_le {s : Subst} {f g : Nat} {t r : Ty} (hf : derefTy s f t = some r)
    (h : f ≤ g) : derefTy s g t = some r := by
  obtain ⟨k, rfl⟩ := Nat.le.dest h
  exact derefTy_mono f hf k

/-- Dereferencing is deterministic across fuels. -/
theorem derefTy_det {s : Subst} {f g : Nat} {t r r' : Ty} (h1 : derefTy s f t = some r)
    (h2 : derefTy s g t = some r') : r = r' := by
  rcases Nat.le_total f g with hle | hle
  · have h3 := derefTy_le h1 hle
    rw [h3] at h2; exact Option.some.inj h2
  · have h3 := derefTy_le h2 hle
    rw [h3] at h1; exact (Option.some.inj h1).symm

/-- A dereference that returns a variable returns an unbound variable. -/
theorem derefTy_root {s : Subst} : ∀ (f : Nat) {t : Ty} {v : Nat},
    derefTy s f t = some (Ty.Var v) → lookupS s v = none := by
  intro f
  induction f with
  | zero =>
    intro t v h
    cases t
    case Var w =>
      cases hl : lookupS s w with
      | none =>
        rw [derefTy_var_none 0 hl] at h
        cases h
        exact hl
      | some u =>
        rw [derefTy_var_some_zero hl] at h
        cases h
    all_goals (simp at h)
  | succ f ih =>
    intro t v h
    cases t
    case Var w =>
      cases hl : lookupS s w with
      | none =>
        rw [derefTy_var_none _ hl] at h
        cases h
        exact hl
      | some u =>
        rw [derefTy_var_some_succ f hl] at h
        exact ih h
    all_goals (simp at h)

/-- The root returned by a dereference dereferences to itself. -/
theorem derefTy_idem {s : Subst} {f : Nat} {t r : Ty} (h : derefTy s f t = some r)
    (g : Nat) : derefTy s g r = some r := by
  cases r
  case Var v => exact derefTy_var_none g (derefTy_root f h)
  all_goals simp

/-- A dereference that avoids `v` is unchanged by binding `v`. -/
theorem derefTy_ext {s : Subst} {v : Nat} {d : Ty} (hv : lookupS s v = none) :
    ∀ (f : Nat) {t r : Ty}, derefTy s f t = some r → r ≠ Ty.Var v →
    derefTy ((v, d) :: s) f t = some r := by
  intro f
  induction f with
  | zero =>
    intro t r h hr
    cases t
    case Var w =>
      cases hl : lookupS s w with
      | none =>
        rw [derefTy_var_none 0 hl] at h
        cases h
        have hwv : w ≠ v := fun he => hr (by rw [he])
        have hl' : lookupS ((v, d) :: s) w = none := by
          rw [lookupS_cons]; simp [Ne.symm hwv, hl]
        rw [derefTy_var_none 0 hl']
      | some u =>
        rw [derefTy_var_some_zero hl] at h
        cases h
    all_goals (simp at h; try subst h; try simp)
  | succ f ih =>
    intro t r h hr
    cases t
    case Var w =>
      cases hl : lookupS s w with
      | none =>
        rw [derefTy_var_none _ hl] at h
        cases h
        have hwv : w ≠ v := fun he => hr (by rw [he])
        have hl' : lookupS ((v, d) :: s) w = none := by
          rw [lookupS_cons]; simp [Ne.symm hwv, hl]
        rw [derefTy_var_none _ hl']
      | some u =>
        rw [derefTy_var_some_succ f hl] at h
        have hwv : w ≠ v := by
          intro he; rw [he, hv] at hl; cases hl
        have hl' : lookupS ((v, d) :: s) w = some u := by
          rw [lookupS_cons]; simp [Ne.symm hwv, hl]
        rw [derefTy_var_some_succ f hl']
        exact ih h hr
    all_goals (simp at h; try subst h; try simp)

/-- A dereference that reaches `v` continues through a new binding of `v`. -/
theorem derefTy_ext_comp {s : Subst} {v : Nat} {d : Ty} (hv : lookupS s v = none) :
    ∀ (f : Nat) {t : Ty} {g : Nat} {r : Ty}, derefTy s f t = some (Ty.Var v) →
    derefTy ((v, d) :: s) g d = some r →
    derefTy ((v, d) :: s) (f + g + 1) t = some r := by
  intro f
  induction f with
  | zero =>
    intro t g r h hd
    cases t
    case Var w =>
      cases hl : lookupS s w with
      | none =>
        rw [derefTy_var_none 0 hl] at h
        cases h
        have hl' : lookupS ((v, d) :: s) v = some d := by
          rw [lookupS_cons]; simp
        rw [Nat.zero_add, derefTy_var_some_succ g hl']
        exact hd
      | some u =>
        rw [derefTy_var_some_zero hl] at h
        cases h
    all_goals (simp at h)
  | succ f ih =>
    intro t g r h hd
    cases t
    case Var w =>
      cases hl : lookupS s w with
      | none =>
        rw [derefTy_var_none _ hl] at h
        cases h
        have hl' : lookupS ((v, d) :: s) v = some d := by
          rw [lookupS_cons]; simp
        have harith : f + 1 + g + 1 = (f + 1 + g) + 1 := by omega
        rw [harith, derefTy_var_some_succ (f + 1 + g) hl']
        exact derefTy_le hd (by omega)
      | some u =>
        rw [derefTy_var_some_succ f hl] at h
        have hwv : w ≠ v := by
          intro he; rw [he, hv] at hl; cases hl
        have hl' : lookupS ((v, d) :: s) w = some u := by
          rw [lookupS_cons]; simp [Ne.symm hwv, hl]
        have harith : f + 1 + g + 1 = (f + g + 1) + 1 := by omega
        rw [harith, derefTy_var_some_succ (f + g + 1) hl']
        exact ih h hd
    all_goals (simp at h)

/-- The occurs check only looks at the dereferenced root of its argument. -/
theorem occursCheck_deref {s : Subst} {v : Nat} {f : Nat} {t : Ty} {b : Bool}
    (h : occursCheck s v f t = some b) {g : Nat} {d : Ty}
    (hd : derefTy s g t = some d) : occursCheck s v f d = some b := by
  cases hdf : derefTy s f t with
  | none => rw [occursCheck, hdf] at h; cases h
  | some d0 =>
    have hdd : d0 = d := derefTy_det hdf hd
    subst hdd
    rw [occursCheck, hdf] at h
    rw [occursCheck, derefTy_idem hdf f]
    exact h

/-- The occurs check of an empty list is negative for every fuel. -/
@[simp] theorem occursCheckList_nil (s : Subst) (v : Nat) (f : Nat) :
    occursCheckList s v f [] = some false := by
  cases f <;> rfl

/-- The occurs check is monotone in the fuel (types and lists bundled). -/
theorem occursCheck_mono_all : ∀ f : Nat,
    (∀ (s : Subst) (v : Nat) (t : Ty) (b : Bool) (k : Nat),
      occursCheck s v f t = some b → occursCheck s v (f + k) t = some b) ∧
    (∀ (s : Subst) (v : Nat) (ts : List Ty) (b : Bool) (k : Nat),
      occursCheckList s v f ts = some b → occursCheckList s v (f + k) ts = some b) := by
  intro f
  induction f with
  | zero =>
    constructor
    · intro s v t b k h
      cases hd : derefTy s 0 t with
      | none => rw [occursCheck, hd] at h; cases h
      | some d =>
        have hd' : derefTy s (0 + k) t = some d := derefTy_mono 0 hd k
        rw [occursCheck, hd] at h
        rw [occursCheck, hd']
        cases d with
        | Unit => exact h
        | Bool => exact h
        | Int => exact h
        | Float => exact h
        | Var w => exact h
        | Fun args ret => simp at h
        | Tuple args => simp at h
        | Array elem => simp at h
    · intro s v ts b k h
      cases ts with
      | nil => simp only [occursCheckList_nil] at h ⊢; exact h
      | cons t ts => simp [occursCheckList] at h
  | succ f ih =>
    constructor
    · intro s v t b k h
      have harith : f + 1 + k = f + k + 1 := by omega
      rw [harith]
      cases hd : derefTy s (f + 1) t with
      | none => rw [occursCheck, hd] at h; cases h
      | some d =>
        have hd' : derefTy s (f + k + 1) t = some d := derefTy_le hd (by omega)
        rw [occursCheck, hd] at h
        rw [occursCheck, hd']
        cases d with
        | Unit => exact h
        | Bool => exact h
        | Int => exact h
        | Float => exact h
        | Var w => exact h
        | Fun args ret =>
          have h2 : (match occursCheckList s v f args with
                     | none => none
                     | some true => some true
                     | some false => occursCheck s v f ret) = some b := h
          show (match occursCheckList s v (f + k) args with
                | none => none
                | some true => some true
                | some false => occursCheck s v (f + k) ret) = some b
          cases hx : occursCheckList s v f args with
          | none => rw [hx] at h2; cases h2
          | some bb =>
            rw [hx] at h2
            cases bb with
            | true => rw [ih.2 s v args true k hx]; exact h2
            | false =>
              rw [ih.2 s v args false k hx]
              exact ih.1 s v ret b k h2
        | Tuple args =>
          have h2 : occursCheckList s v f args = some b := h
          show occursCheckList s v (f + k) args = some b
          exact ih.2 s v args b k h2
        | Array elem =>
          have h2 : occursCheck s v f elem = some b := h
          show occursCheck s v (f + k) elem = some b
          exact ih.1 s v elem b k h2
    · intro s v ts b k h
      cases ts with
      | nil => simp only [occursCheckList_nil] at h ⊢; exact h
      | cons t ts =>
        have harith : f + 1 + k = f + k + 1 := by omega
        rw [harith]
        have h2 : (match occursCheck s v f t with
                   | none => none
                   | some true => some true
                   | some false => occursCheckList s v f ts) = some b := h
        show (match occursCheck s v (f + k) t with
              | none => none
              | some true => some true
              | some false => occursCheckList s v (f + k) ts) = some b
        cases hx : occursCheck s v f t with
        | none => rw [hx] at h2; cases h2
        | some bb =>
          rw [hx] at h2
          cases bb with
          | true => rw [ih.1 s v t true k hx]; exact h2
          | false =>
            rw [ih.1 s v t false k hx]
            exact ih.2 s v ts b k h2

/-- The occurs check is monotone in the fuel. -/
theorem occursCheck_mono {s : Subst} {v : Nat} {f g : Nat} {t : Ty} {b : Bool}
    (h : occursCheck s v f t = some b) (hle : f ≤ g) : occursCheck s v g t = some b := by
  obtain ⟨k, rfl⟩ := Nat.le.dest hle
  exact (occursCheck_mono_all f).1 s v t b k h

/-- A positive occurs check implies the checked variable is unbound: the
    check compares `v` only against dereference roots, and a root variable
    is unbound. -/
theorem occursCheck_true_unbound_all : ∀ f : Nat,
    (∀ (s : Subst) (v : Nat) (t : Ty),
      occursCheck s v f t = some true → lookupS s v = none) ∧
    (∀ (s : Subst) (v : Nat) (ts : List Ty),
      occursCheckList s v f ts = some true → lookupS s v = none) := by
  intro f
  induction f with
  | zero =>
    constructor
    · intro s v t h
      cases hd : derefTy s 0 t with
      | none => rw [occursCheck, hd] at h; cases h
      | some d =>
        rw [occursCheck, hd] at h
        cases d with
        | Var w =>
          simp at h
          subst h
          exact derefTy_root 0 hd
        | Unit => simp at h
        | Bool => simp at h
        | Int => simp at h
        | Float => simp at h
        | Fun args ret => simp at h
        | Tuple args => simp at h
        | Array elem => simp at h
    · intro s v ts h
      cases ts with
      | nil => simp [occursCheckList] at h
      | cons t ts => simp [occursCheckList] at h
  | succ f ih =>
    constructor
    · intro s v t h
      cases hd : derefTy s (f + 1) t with
      | none => rw [occursCheck, hd] at h; cases h
      | some d =>
        rw [occursCheck, hd] at h
        cases d with
        | Var w =>
          simp at h
          subst h
          exact derefTy_root (f + 1) hd
        | Unit => simp at h
        | Bool => simp at h
        | Int => simp at h
        | Float => simp at h
        | Fun args ret =>
          have h2 : (match occursCheckList s v f args with
                     | none => none
                     | some true => some true
                     | some false => occursCheck s v f ret) = some true := h
          cases hx : occursCheckList s v f args with
          | none => rw [hx] at h2; cases h2
          | some bb =>
            rw [hx] at h2
            cases bb with
            | true => exact ih.2 s v args hx
            | false => exact ih.1 s v ret h2
        | Tuple args =>
          have h2 : occursCheckList s v f args = some true := h
          exact ih.2 s v args h2
        | Array elem =>
          have h2 : occursCheck s v f elem = some true := h
          exact ih.1 s v elem h2
    · intro s v ts h
      cases ts with
      | nil => simp [occursCheckList] at h
      | cons t ts =>
        have h2 : (match occursCheck s v f t with
                   | none => none
                   | some true => some true
                   | some false => occursCheckList s v f ts) = some true := h
        cases hx : occursCheck s v f t with
        | none => rw [hx] at h2; cases h2
        | some bb =>
          rw [hx] at h2
          cases bb with
          | true => exact ih.1 s v t hx
          | false => exact ih.2 s v ts h2

/-- A positive occurs check implies the checked variable is unbound. -/
theorem occursCheck_true_unbound {s : Subst} {v : Nat} {f : Nat} {t : Ty}
    (h : occursCheck s v f t = some true) : lookupS s v = none :=
  (occursCheck_true_unbound_all f).1 s v t h

/-- After a negative occurs check on `t`, no dereference of `t` is `Var v`. -/
theorem occursCheck_false_root {s : Subst} {v : Nat} {f : Nat} {t : Ty}
    (h : occursCheck s v f t = some false) {g : Nat} {d : Ty}
    (hd : derefTy s g t = some d) : d ≠ Ty.Var v := by
  intro he
  subst he
  have h2 : occursCheck s v f (Ty.Var v) = some false := occursCheck_deref h hd
  have hun : lookupS s v = none := derefTy_root g hd
  rw [occursCheck, derefTy_var_none f hun] at h2
  simp at h2

/-- Unfolding: the substitution of a successful result. -/
@[simp] theorem URes.subst_ok (s : Subst) : (URes.ok s).subst = s := rfl

/-- Unfolding: the substitution of a failed result. -/
@[simp] theorem URes.subst_err (s : Subst) (e : TypeErr) : (URes.err s e).subst = s := rfl

/-- `s'` extends `s` when it prepends bindings for variables unbound in `s`;
    this is how `unify` grows the substitution (monotonic growth, no
    binding is ever overwritten). -/
def Extends (s' s : Subst) : Prop :=
  ∃ p : List (Nat × Ty), s' = p ++ s ∧ ∀ q ∈ p, lookupS s q.1 = none

/-- Extension is reflexive. -/
theorem Extends.refl (s : Subst) : Extends s s := ⟨[], rfl, by simp⟩

/-- One fresh binding extends the substitution. -/
theorem Extends.cons {s : Subst} {v : Nat} {d : Ty} (hv : lookupS s v = none) :
    Extends ((v, d) :: s) s := ⟨[(v, d)], rfl, by simpa using hv⟩

/-- Lookup in an appended substitution tries the prefix first. -/
theorem lookupS_append : ∀ (p s : Subst) (v : Nat),
    lookupS (p ++ s) v =
      match lookupS p v with
      | some t => some t
      | none => lookupS s v := by
  intro p
  induction p with
  | nil => intro s v; rfl
  | cons q p ih =>
    intro s v
    obtain ⟨w, t⟩ := q
    by_cases hwv : w = v
    · subst hwv
      simp [lookupS]
    · simp [lookupS, hwv]
      exact ih s v

/-- A successful lookup names an entry of the list. -/
theorem lookupS_some_mem : ∀ (p : Subst) {v : Nat} {t : Ty},
    lookupS p v = some t → (v, t) ∈ p := by
  intro p
  induction p with
  | nil => intro v t h; cases h
  | cons q p ih =>
    intro v t h
    obtain ⟨w, u⟩ := q
    by_cases hwv : w = v
    · subst hwv
      rw [lookupS, if_pos rfl] at h
      cases h
      exact List.mem_cons_self _ _
    · rw [lookupS, if_neg hwv] at h
      exact List.mem_cons_of_mem _ (ih h)

/-- Extension preserves every existing binding. -/
theorem Extends.lookup {s' s : Subst} (he : Extends s' s) {v : Nat} {u : Ty}
    (h : lookupS s v = some u) : lookupS s' v = some u := by
  obtain ⟨p, rfl, hp⟩ := he
  rw [lookupS_append]
  cases hq : lookupS p v with
  | none => exact h
  | some t =>
    have hmem := lookupS_some_mem p hq
    have := hp _ hmem
    rw [this] at h
    cases h

/-- Extension is transitive. -/
theorem Extends.trans {s'' s' s : Subst} (h2 : Extends s'' s') (h1 : Extends s' s) :
    Extends s'' s := by
  obtain ⟨p2, rfl, hp2⟩ := h2
  obtain ⟨p1, rfl, hp1⟩ := h1
  refine ⟨p2 ++ p1, by simp, ?_⟩
  intro q hq
  rcases List.mem_append.mp hq with hq2 | hq1
  · have hnone := hp2 _ hq2
    rw [lookupS_append] at hnone
    cases hx : lookupS p1 q.1 with
    | none => rw [hx] at hnone; exact hnone
    | some t => rw [hx] at hnone; cases hnone
  · exact hp1 _ hq1

/-- Empty lists unify successfully without touching the substitution. -/
@[simp] theorem unifyList_nil_left (f : Nat) (s : Subst) (l : List Ty) :
    unifyList f s [] l = some (URes.ok s) := by
  cases f <;> rfl

/-- A list against an empty list unifies successfully (the source zips). -/
@[simp] theorem unifyList_cons_nil (f : Nat) (s : Subst) (a : Ty) (ts : List Ty) :
    unifyList f s (a :: ts) [] = some (URes.ok s) := by
  cases f <;> rfl

/-- Dispatch: an arm producing an untouched success extends trivially. -/
theorem extends_of_ok {s : Subst} {r : URes}
    (h : (some (URes.ok s) : Option URes) = some r) : Extends r.subst s := by
  cases h
  exact Extends.refl s

/-- Dispatch: an arm producing an error leaves the substitution unchanged. -/
theorem extends_of_err {s : Subst} {e : TypeErr} {r : URes}
    (h : (some (URes.err s e) : Option URes) = some r) : Extends r.subst s := by
  cases h
  exact Extends.refl s

/-- Dispatch: the variable-binding arm of `unify` extends the substitution
    by one fresh binding (or fails leaving it unchanged). -/
theorem unifyVar_extends {F : Nat} {s : Subst} {v : Nat} {d d1 d2 : Ty} {r : URes}
    (hv : lookupS s v = none)
    (h : unifyVar F s v d d1 d2 = some r) :
    Extends r.subst s := by
  rw [unifyVar] at h
  cases hx : occursCheck s v F d with
  | none => rw [hx] at h; cases h
  | some bb =>
    rw [hx] at h
    cases bb with
    | true => cases h; exact Extends.refl s
    | false => cases h; exact Extends.cons hv

/-- `unify` only extends the substitution: every binding present before a
    call (successful or failed) is still present, unchanged, afterwards. -/
theorem unify_extends_all : ∀ fuel : Nat,
    (∀ (s : Subst) (t1 t2 : Ty) (r : URes),
      unify fuel s t1 t2 = some r → Extends r.subst s) ∧
    (∀ (s : Subst) (l1 l2 : List Ty) (r : URes),
      unifyList fuel s l1 l2 = some r → Extends r.subst s) := by
  intro fuel
  induction fuel with
  | zero =>
    constructor
    · intro s t1 t2 r h
      cases h
    · intro s l1 l2 r h
      cases l1 with
      | nil => rw [unifyList_nil_left] at h; cases h; exact Extends.refl s
      | cons a ts =>
        cases l2 with
        | nil => rw [unifyList_cons_nil] at h; cases h; exact Extends.refl s
        | cons b ts2 => simp [unifyList] at h
  | succ fuel ih =>
    constructor
    · intro s t1 t2 r h
      rw [unify] at h
      cases hd1 : derefTy s (fuel + 1) t1 with
      | none => rw [hd1] at h; cases h
      | some d1 =>
        cases hd2 : derefTy s (fuel + 1) t2 with
        | none => rw [hd1, hd2] at h; cases h
        | some d2 =>
          rw [hd1, hd2] at h
          cases d1 <;> cases d2 <;> (try dsimp only at h)
          case Fun.Fun args1 ret1 args2 ret2 =>
            have h2 : (if args1.length ≠ args2.length then
                        some (URes.err s (TypeErr.UnifyError (Ty.Fun args1 ret1) (Ty.Fun args2 ret2)))
                       else
                        match unifyList fuel s args1 args2 with
                        | none => none
                        | some (URes.ok s') => unify fuel s' ret1 ret2
                        | some r0 => some r0) = some r := h
            by_cases hlen : args1.length ≠ args2.length
            · rw [if_pos hlen] at h2
              exact extends_of_err h2
            · rw [if_neg hlen] at h2
              cases hx : unifyList fuel s args1 args2 with
              | none => rw [hx] at h2; cases h2
              | some r0 =>
                rw [hx] at h2
                cases r0 with
                | ok s' =>
                  have hext1 : Extends s' s := ih.2 s args1 args2 (URes.ok s') hx
                  have hext2 : Extends r.subst s' := ih.1 s' ret1 ret2 r h2
                  exact hext2.trans hext1
                | err s0 e0 =>
                  cases h2
                  exact ih.2 s args1 args2 (URes.err s0 e0) hx
          case Var.Var v1 v2 =>
            have h2 : (if v1 = v2 then some (URes.ok s)
                       else unifyVar (fuel + 1) s v1 (Ty.Var v2) (Ty.Var v1) (Ty.Var v2)) = some r := h
            by_cases hvv : v1 = v2
            · rw [if_pos hvv] at h2
              exact extends_of_ok h2
            · rw [if_neg hvv] at h2
              exact unifyVar_extends (derefTy_root _ hd1) h2
          case Tuple.Tuple args1 args2 =>
            have h2 : (if args1.length ≠ args2.length then
                        some (URes.err s (TypeErr.UnifyError (Ty.Tuple args1) (Ty.Tuple args2)))
                       else unifyList fuel s args1 args2) = some r := h
            by_cases hlen : args1.length ≠ args2.length
            · rw [if_pos hlen] at h2
              exact extends_of_err h2
            · rw [if_neg hlen] at h2
              exact ih.2 s args1 args2 r h2
          case Array.Array e1 e2 =>
            exact ih.1 s e1 e2 r h
          all_goals first
            | exact extends_of_ok h
            | exact extends_of_err h
            | exact unifyVar_extends (derefTy_root _ hd1) h
            | exact unifyVar_extends (derefTy_root _ hd2) h
    · intro s l1 l2 r h
      cases l1 with
      | nil => rw [unifyList_nil_left] at h; cases h; exact Extends.refl s
      | cons a ts1 =>
        cases l2 with
        | nil => rw [unifyList_cons_nil] at h; cases h; exact Extends.refl s
        | cons b ts2 =>
          have h2 : (match unify fuel s a b with
                     | none => none
                     | some (URes.ok s') => unifyList fuel s' ts1 ts2
                     | some r0 => some r0) = some r := h
          cases hx : unify fuel s a b with
          | none => rw [hx] at h2; cases h2
          | some r0 =>
            rw [hx] at h2
            cases r0 with
            | ok s' =>
              have hext1 : Extends s' s := ih.1 s a b (URes.ok s') hx
              have hext2 : Extends r.subst s' := ih.2 s' ts1 ts2 r h2
              exact hext2.trans hext1
            | err s0 e0 =>
              cases h2
              exact ih.1 s a b (URes.err s0 e0) hx

/-- `unify` only extends the substitution (single-call form). -/
theorem unify_extends {fuel : Nat} {s : Subst} {t1 t2 : Ty} {r : URes}
    (h : unify fuel s t1 t2 = some r) : Extends r.subst s :=
  (unify_extends_all fuel).1 s t1 t2 r h

/-- The variable-binding arm is monotone in the occurs-check fuel. -/
theorem unifyVar_mono {F F' : Nat} {s : Subst} {v : Nat} {d d1 d2 : Ty} {r : URes}
    (h : unifyVar F s v d d1 d2 = some r) (hle : F ≤ F') :
    unifyVar F' s v d d1 d2 = some r := by
  rw [unifyVar] at h ⊢
  cases hx : occursCheck s v F d with
  | none => rw [hx] at h; cases h
  | some bb =>
    rw [hx] at h
    rw [occursCheck_mono hx hle]
    exact h

/-- `unify` is monotone in the fuel (types and lists bundled). -/
theorem unify_mono_all : ∀ fuel : Nat,
    (∀ (s : Subst) (t1 t2 : Ty) (r : URes) (k : Nat),
      unify fuel s t1 t2 = some r → unify (fuel + k) s t1 t2 = some r) ∧
    (∀ (s : Subst) (l1 l2 : List Ty) (r : URes) (k : Nat),
      unifyList fuel s l1 l2 = some r → unifyList (fuel + k) s l1 l2 = some r) := by
  intro fuel
  induction fuel with
  | zero =>
    constructor
    · intro s t1 t2 r k h
      cases h
    · intro s l1 l2 r k h
      cases l1 with
      | nil => rw [unifyList_nil_left] at h ⊢; exact h
      | cons a ts1 =>
        cases l2 with
        | nil => rw [unifyList_cons_nil] at h ⊢; exact h
        | cons b ts2 => simp [unifyList] at h
  | succ fuel ih =>
    constructor
    · intro s t1 t2 r k h
      have harith : fuel + 1 + k = (fuel + k) + 1 := by omega
      rw [harith]
      rw [unify] at h ⊢
      cases hd1 : derefTy s (fuel + 1) t1 with
      | none => rw [hd1] at h; cases h
      | some d1 =>
        cases hd2 : derefTy s (fuel + 1) t2 with
        | none => rw [hd1, hd2] at h; cases h
        | some d2 =>
          rw [hd1, hd2] at h
          rw [derefTy_le hd1 (by omega : fuel + 1 ≤ fuel + k + 1),
              derefTy_le hd2 (by omega : fuel + 1 ≤ fuel + k + 1)]
          cases d1 <;> cases d2 <;> (try dsimp only at h ⊢)
          case Fun.Fun args1 ret1 args2 ret2 =>
            by_cases hlen : args1.length ≠ args2.length
            · rw [if_pos hlen] at h ⊢
              exact h
            · rw [if_neg hlen] at h ⊢
              cases hx : unifyList fuel s args1 args2 with
              | none => rw [hx] at h; cases h
              | some r0 =>
                rw [hx] at h
                rw [ih.2 s args1 args2 r0 k hx]
                cases r0 with
                | ok s' => exact ih.1 s' ret1 ret2 r k h
                | err s0 e0 => exact h
          case Var.Var v1 v2 =>
            by_cases hvv : v1 = v2
            · rw [if_pos hvv] at h ⊢
              exact h
            · rw [if_neg hvv] at h ⊢
              exact unifyVar_mono h (by omega)
          case Tuple.Tuple args1 args2 =>
            by_cases hlen : args1.length ≠ args2.length
            · rw [if_pos hlen] at h ⊢
              exact h
            · rw [if_neg hlen] at h ⊢
              exact ih.2 s args1 args2 r k h
          case Array.Array e1 e2 =>
            exact ih.1 s e1 e2 r k h
          all_goals first
            | exact h
            | exact unifyVar_mono h (by omega)
    · intro s l1 l2 r k h
      cases l1 with
      | nil => rw [unifyList_nil_left] at h ⊢; exact h
      | cons a ts1 =>
        cases l2 with
        | nil => rw [unifyList_cons_nil] at h ⊢; exact h
        | cons b ts2 =>
          have harith : fuel + 1 + k = (fuel + k) + 1 := by omega
          rw [harith]
          have h2 : (match unify fuel s a b with
                     | none => none
                     | some (URes.ok s') => unifyList fuel s' ts1 ts2
                     | some r0 => some r0) = some r := h
          show (match unify (fuel + k) s a b with
                | none => none
                | some (URes.ok s') => unifyList (fuel + k) s' ts1 ts2
                | some r0 => some r0) = some r
          cases hx : unify fuel s a b with
          | none => rw [hx] at h2; cases h2
          | some r0 =>
            rw [hx] at h2
            rw [ih.1 s a b r0 k hx]
            cases r0 with
            | ok s' => exact ih.2 s' ts1 ts2 r k h2
            | err s0 e0 => exact h2

/-- `unify` is monotone in the fuel. -/
theorem unify_mono {fuel fuel' : Nat} {s : Subst} {t1 t2 : Ty} {r : URes}
    (h : unify fuel s t1 t2 = some r) (hle : fuel ≤ fuel') : unify fuel' s t1 t2 = some r := by
  obtain ⟨k, rfl⟩ := Nat.le.dest hle
  exact (unify_mono_all fuel).1 s t1 t2 r k h

/-- Unfolding: resolving with no fuel. -/
@[simp] theorem resolveTy_zero (s : Subst) (t : Ty) : resolveTy s 0 t = none := rfl

/-- Unfolding: resolving an empty list. -/
@[simp] theorem resolveList_nil (s : Subst) (f : Nat) : resolveList s f [] = some [] := by
  cases f <;> rfl

/-- Unfolding: resolving a variable follows its binding. -/
theorem resolveTy_var (s : Subst) (f : Nat) (v : Nat) :
    resolveTy s (f + 1) (Ty.Var v) =
      match lookupS s v with
      | none => some (Ty.Var v)
      | some u => resolveTy s f u := rfl

/-- Resolution is monotone in the fuel (types and lists bundled). -/
theorem resolve_mono_all : ∀ f : Nat,
    (∀ (s : Subst) (t r : Ty) (k : Nat),
      resolveTy s f t = some r → resolveTy s (f + k) t = some r) ∧
    (∀ (s : Subst) (ts rs : List Ty) (k : Nat),
      resolveList s f ts = some rs → resolveList s (f + k) ts = some rs) := by
  intro f
  induction f with
  | zero =>
    constructor
    · intro s t r k h
      cases h
    · intro s ts rs k h
      cases ts with
      | nil => rw [resolveList_nil] at h ⊢; exact h
      | cons t ts => simp [resolveList] at h
  | succ f ih =>
    constructor
    · intro s t r k h
      have harith : f + 1 + k = (f + k) + 1 := by omega
      rw [harith]
      cases t with
      | Var v =>
        rw [resolveTy_var] at h
        rw [resolveTy_var]
        cases hl : lookupS s v with
        | none => rw [hl] at h; exact h
        | some u => rw [hl] at h; exact ih.1 s u r k h
      | Unit => exact h
      | Bool => exact h
      | Int => exact h
      | Float => exact h
      | Fun args ret =>
        have h2 : (match resolveList s f args, resolveTy s f ret with
                   | some args', some ret' => some (Ty.Fun args' ret')
                   | _, _ => none) = some r := h
        show (match resolveList s (f + k) args, resolveTy s (f + k) ret with
              | some args', some ret' => some (Ty.Fun args' ret')
              | _, _ => none) = some r
        cases hx : resolveList s f args with
        | none => rw [hx] at h2; cases h2
        | some args' =>
          rw [hx] at h2
          cases hy : resolveTy s f ret with
          | none => rw [hy] at h2; cases h2
          | some ret' =>
            rw [hy] at h2
            rw [ih.2 s args args' k hx, ih.1 s ret ret' k hy]
            exact h2
      | Tuple args =>
        have h2 : (match resolveList s f args with
                   | some args' => some (Ty.Tuple args')
                   | none => none) = some r := h
        show (match resolveList s (f + k) args with
              | some args' => some (Ty.Tuple args')
              | none => none) = some r
        cases hx : resolveList s f args with
        | none => rw [hx] at h2; cases h2
        | some args' =>
          rw [hx] at h2
          rw [ih.2 s args args' k hx]
          exact h2
      | Array elem =>
        have h2 : (match resolveTy s f elem with
                   | some e' => some (Ty.Array e')
                   | none => none) = some r := h
        show (match resolveTy s (f + k) elem with
              | some e' => some (Ty.Array e')
              | none => none) = some r
        cases hx : resolveTy s f elem with
        | none => rw [hx] at h2; cases h2
        | some e' =>
          rw [hx] at h2
          rw [ih.1 s elem e' k hx]
          exact h2
    · intro s ts rs k h
      cases ts with
      | nil => rw [resolveList_nil] at h ⊢; exact h
      | cons t ts =>
        have harith : f + 1 + k = (f + k) + 1 := by omega
        rw [harith]
        have h2 : (match resolveTy s f t, resolveList s f ts with
                   | some t', some ts' => some (t' :: ts')
                   | _, _ => none) = some rs := h
        show (match resolveTy s (f + k) t, resolveList s (f + k) ts with
              | some t', some ts' => some (t' :: ts')
              | _, _ => none) = some rs
        cases hx : resolveTy s f t with
        | none => rw [hx] at h2; cases h2
        | some t' =>
          rw [hx] at h2
          cases hy : resolveList s f ts with
          | none => rw [hy] at h2; cases h2
          | some ts' =>
            rw [hy] at h2
            rw [ih.1 s t t' k hx, ih.2 s ts ts' k hy]
            exact h2

/-- Resolution is monotone in the fuel. -/
theorem resolve_mono {s : Subst} {f g : Nat} {t r : Ty}
    (h : resolveTy s f t = some r) (hle : f ≤ g) : resolveTy s g t = some r := by
  obtain ⟨k, rfl⟩ := Nat.le.dest hle
  exact (resolve_mono_all f).1 s t r k h

/-- Resolution is deterministic across fuels. -/
theorem resolve_det {s : Subst} {f g : Nat} {t r r' : Ty}
    (h1 : resolveTy s f t = some r) (h2 : resolveTy s g t = some r') : r = r' := by
  rcases Nat.le_total f g with hle | hle
  · have h3 := resolve_mono h1 hle
    rw [h3] at h2; exact Option.some.inj h2
  · have h3 := resolve_mono h2 hle
    rw [h3] at h1; exact (Option.some.inj h1).symm

/-- Resolution under an extension factors through the dereference walk in
    the smaller substitution: all bindings on the walk exist in the
    extension too. -/
theorem resolve_walk {s' s : Subst} (hext : Extends s' s) :
    ∀ (g : Nat) {t w : Ty}, derefTy s g t = some w →
    ∀ {f : Nat} {r : Ty}, resolveTy s' f t = some r → resolveTy s' f w = some r := by
  intro g
  induction g with
  | zero =>
    intro t w hd f r h
    cases t
    case Var v =>
      cases hl : lookupS s v with
      | none =>
        rw [derefTy_var_none 0 hl] at hd
        cases hd
        exact h
      | some u =>
        rw [derefTy_var_some_zero hl] at hd
        cases hd
    all_goals (simp at hd; subst hd; exact h)
  | succ g ih =>
    intro t w hd f r h
    cases t
    case Var v =>
      cases hl : lookupS s v with
      | none =>
        rw [derefTy_var_none _ hl] at hd
        cases hd
        exact h
      | some u =>
        rw [derefTy_var_some_succ g hl] at hd
        cases f with
        | zero => cases h
        | succ f' =>
          rw [resolveTy_var, Extends.lookup hext hl] at h
          exact resolve_mono (ih hd h) (by omega)
    all_goals (simp at hd; subst hd; exact h)

/-- Inversion: a successful variable-binding arm prepends the binding. -/
theorem unifyVar_ok_inv {F : Nat} {s : Subst} {v : Nat} {d d1 d2 : Ty} {s' : Subst}
    (h : unifyVar F s v d d1 d2 = some (URes.ok s')) : s' = (v, d) :: s := by
  rw [unifyVar] at h
  cases hx : occursCheck s v F d with
  | none => rw [hx] at h; cases h
  | some bb =>
    rw [hx] at h
    cases bb with
    | true => simp at h
    | false => cases h; rfl

/-- Two types whose dereference roots coincide resolve to the same type in
    any substitution extending the current one. -/
theorem sound_same_root {s s' s'' : Subst} {g1 g2 : Nat} {t1 t2 d : Ty} {fa fb : Nat}
    {ra rb : Ty}
    (h : (some (URes.ok s) : Option URes) = some (URes.ok s'))
    (hext : Extends s'' s')
    (hd1 : derefTy s g1 t1 = some d) (hd2 : derefTy s g2 t2 = some d)
    (hra : resolveTy s'' fa t1 = some ra) (hrb : resolveTy s'' fb t2 = some rb) :
    ra = rb := by
  cases h
  exact resolve_det (resolve_walk hext g1 hd1 hra) (resolve_walk hext g2 hd2 hrb)

/-- After a successful variable-binding arm, the bound variable and the
    bound type resolve to the same type in any extension of the result. -/
theorem sound_var_arm {F : Nat} {s s' s'' : Subst} {v : Nat} {d d1 d2 : Ty}
    {g1 g2 : Nat} {t1 t2 : Ty} {fa fb : Nat} {ra rb : Ty}
    (h : unifyVar F s v d d1 d2 = some (URes.ok s'))
    (hext : Extends s'' s')
    (hd1 : derefTy s g1 t1 = some (Ty.Var v)) (hd2 : derefTy s g2 t2 = some d)
    (hra : resolveTy s'' fa t1 = some ra) (hrb : resolveTy s'' fb t2 = some rb) :
    ra = rb := by
  have hv : lookupS s v = none := derefTy_root g1 hd1
  have hs' : s' = (v, d) :: s := unifyVar_ok_inv h
  subst hs'
  have hes : Extends s'' s := hext.trans (Extends.cons hv)
  have hw1 : resolveTy s'' fa (Ty.Var v) = some ra := resolve_walk hes g1 hd1 hra
  have hw2 : resolveTy s'' fb d = some rb := resolve_walk hes g2 hd2 hrb
  have hlk : lookupS s'' v = some d := Extends.lookup hext (by rw [lookupS_cons]; simp)
  cases fa with
  | zero => cases hw1
  | succ fa' =>
    rw [resolveTy_var, hlk] at hw1
    exact resolve_det hw1 hw2

/-- Pairwise-equal resolutions give equal list resolutions. -/
theorem resolveList_congr {s'' : Subst} : ∀ (l1 l2 : List Ty),
    (∀ p ∈ l1.zip l2, ∀ (fa : Nat) (ra : Ty) (fb : Nat) (rb : Ty),
      resolveTy s'' fa p.1 = some ra → resolveTy s'' fb p.2 = some rb → ra = rb) →
    l1.length = l2.length →
    ∀ {fA : Nat} {A1 : List Ty} {fB : Nat} {A2 : List Ty},
    resolveList s'' fA l1 = some A1 → resolveList s'' fB l2 = some A2 → A1 = A2 := by
  intro l1
  induction l1 with
  | nil =>
    intro l2 hzip hlen fA A1 fB A2 h1 h2
    cases l2 with
    | nil =>
      rw [resolveList_nil] at h1 h2
      cases h1; cases h2; rfl
    | cons b ts2 => simp at hlen
  | cons a ts1 ih =>
    intro l2 hzip hlen fA A1 fB A2 h1 h2
    cases l2 with
    | nil => simp at hlen
    | cons b ts2 =>
      cases fA with
      | zero => simp [resolveList] at h1
      | succ fA' =>
        cases fB with
        | zero => simp [resolveList] at h2
        | succ fB' =>
          have h1' : (match resolveTy s'' fA' a, resolveList s'' fA' ts1 with
                      | some t', some ts' => some (t' :: ts')
                      | _, _ => none) = some A1 := h1
          have h2' : (match resolveTy s'' fB' b, resolveList s'' fB' ts2 with
                      | some t', some ts' => some (t' :: ts')
                      | _, _ => none) = some A2 := h2
          cases hx1 : resolveTy s'' fA' a with
          | none => rw [hx1] at h1'; cases h1'
          | some a' =>
            rw [hx1] at h1'
            cases hy1 : resolveList s'' fA' ts1 with
            | none => rw [hy1] at h1'; cases h1'
            | some A1' =>
              rw [hy1] at h1'
              cases hx2 : resolveTy s'' fB' b with
              | none => rw [hx2] at h2'; cases h2'
              | some b' =>
                rw [hx2] at h2'
                cases hy2 : resolveList s'' fB' ts2 with
                | none => rw [hy2] at h2'; cases h2'
                | some A2' =>
                  rw [hy2] at h2'
                  cases h1'
                  cases h2'
                  have hhead : a' = b' := by
                    refine hzip (a, b) ?_ fA' a' fB' b' hx1 hx2
                    rw [List.zip_cons_cons]
                    exact List.mem_cons_self _ _
                  have htail : A1' = A2' := by
                    refine ih ts2 ?_ (by simpa using hlen) hy1 hy2
                    intro p hp
                    refine hzip p ?_
                    rw [List.zip_cons_cons]
                    exact List.mem_cons_of_mem _ hp
                  rw [hhead, htail]

/-- Soundness of unification: after a successful `unify`, the two
    argument types resolve to the same type under the resulting
    substitution (and under any extension of it). -/
theorem unify_sound_all : ∀ fuel : Nat,
    (∀ (s : Subst) (t1 t2 : Ty) (s' : Subst),
      unify fuel s t1 t2 = some (URes.ok s') →
      ∀ s'' : Subst, Extends s'' s' →
      ∀ (fa : Nat) (ra : Ty) (fb : Nat) (rb : Ty),
        resolveTy s'' fa t1 = some ra → resolveTy s'' fb t2 = some rb → ra = rb) ∧
    (∀ (s : Subst) (l1 l2 : List Ty) (s' : Subst),
      unifyList fuel s l1 l2 = some (URes.ok s') →
      ∀ s'' : Subst, Extends s'' s' →
      ∀ p ∈ l1.zip l2, ∀ (fa : Nat) (ra : Ty) (fb : Nat) (rb : Ty),
        resolveTy s'' fa p.1 = some ra → resolveTy s'' fb p.2 = some rb → ra = rb) := by
  intro fuel
  induction fuel with
  | zero =>
    constructor
    · intro s t1 t2 s' h
      cases h
    · intro s l1 l2 s' h s'' hext p hp
      cases l1 with
      | nil => simp at hp
      | cons a ts1 =>
        cases l2 with
        | nil => simp at hp
        | cons b ts2 => simp [unifyList] at h
  | succ fuel ih =>
    constructor
    · intro s t1 t2 s' h s'' hext fa ra fb rb hra hrb
      rw [unify] at h
      cases hd1 : derefTy s (fuel + 1) t1 with
      | none => rw [hd1] at h; cases h
      | some d1 =>
        cases hd2 : derefTy s (fuel + 1) t2 with
        | none => rw [hd1, hd2] at h; cases h
        | some d2 =>
          rw [hd1, hd2] at h
          cases d1 <;> cases d2 <;> (try dsimp only at h)
          case Fun.Fun args1 ret1 args2 ret2 =>
            by_cases hlen : args1.length ≠ args2.length
            · rw [if_pos hlen] at h
              simp at h
            · rw [if_neg hlen] at h
              cases hx : unifyList fuel s args1 args2 with
              | none => rw [hx] at h; cases h
              | some r0 =>
                rw [hx] at h
                cases r0 with
                | err s0 e0 => simp at h
                | ok s1 =>
                  have h3 : unify fuel s1 ret1 ret2 = some (URes.ok s') := h
                  have hext_s1_s : Extends s1 s :=
                    (unify_extends_all fuel).2 s args1 args2 (URes.ok s1) hx
                  have hext_s'_s1 : Extends s' s1 := unify_extends h3
                  have hes1 : Extends s'' s1 := hext.trans hext_s'_s1
                  have hes : Extends s'' s := hes1.trans hext_s1_s
                  have hw1 := resolve_walk hes (fuel + 1) hd1 hra
                  have hw2 := resolve_walk hes (fuel + 1) hd2 hrb
                  cases fa with
                  | zero => cases hw1
                  | succ fa' =>
                    cases fb with
                    | zero => cases hw2
                    | succ fb' =>
                      have hw1' : (match resolveList s'' fa' args1, resolveTy s'' fa' ret1 with
                                   | some args', some ret' => some (Ty.Fun args' ret')
                                   | _, _ => none) = some ra := hw1
                      have hw2' : (match resolveList s'' fb' args2, resolveTy s'' fb' ret2 with
                                   | some args', some ret' => some (Ty.Fun args' ret')
                                   | _, _ => none) = some rb := hw2
                      cases hA1 : resolveList s'' fa' args1 with
                      | none => rw [hA1] at hw1'; cases hw1'
                      | some A1 =>
                        rw [hA1] at hw1'
                        cases hR1 : resolveTy s'' fa' ret1 with
                        | none => rw [hR1] at hw1'; cases hw1'
                        | some R1 =>
                          rw [hR1] at hw1'
                          cases hA2 : resolveList s'' fb' args2 with
                          | none => rw [hA2] at hw2'; cases hw2'
                          | some A2 =>
                            rw [hA2] at hw2'
                            cases hR2 : resolveTy s'' fb' ret2 with
                            | none => rw [hR2] at hw2'; cases hw2'
                            | some R2 =>
                              rw [hR2] at hw2'
                              cases hw1'
                              cases hw2'
                              have hzip := ih.2 s args1 args2 s1 hx s'' hes1
                              have hargs : A1 = A2 :=
                                resolveList_congr args1 args2 hzip
                                  (by omega) hA1 hA2
                              have hret : R1 = R2 :=
                                ih.1 s1 ret1 ret2 s' h3 s'' hext fa' R1 fb' R2 hR1 hR2
                              rw [hargs, hret]
          case Var.Var v1 v2 =>
            by_cases hvv : v1 = v2
            · rw [if_pos hvv] at h
              subst hvv
              exact sound_same_root h hext hd1 hd2 hra hrb
            · rw [if_neg hvv] at h
              exact sound_var_arm h hext hd1 hd2 hra hrb
          case Tuple.Tuple args1 args2 =>
            by_cases hlen : args1.length ≠ args2.length
            · rw [if_pos hlen] at h
              simp at h
            · rw [if_neg hlen] at h
              have hext_s'_s : Extends s' s :=
                (unify_extends_all fuel).2 s args1 args2 (URes.ok s') h
              have hes : Extends s'' s := hext.trans hext_s'_s
              have hw1 := resolve_walk hes (fuel + 1) hd1 hra
              have hw2 := resolve_walk hes (fuel + 1) hd2 hrb
              cases fa with
              | zero => cases hw1
              | succ fa' =>
                cases fb with
                | zero => cases hw2
                | succ fb' =>
                  have hw1' : (match resolveList s'' fa' args1 with
                               | some args' => some (Ty.Tuple args')
                               | none => none) = some ra := hw1
                  have hw2' : (match resolveList s'' fb' args2 with
                               | some args' => some (Ty.Tuple args')
                               | none => none) = some rb := hw2
                  cases hA1 : resolveList s'' fa' args1 with
                  | none => rw [hA1] at hw1'; cases hw1'
                  | some A1 =>
                    rw [hA1] at hw1'
                    cases hA2 : resolveList s'' fb' args2 with
                    | none => rw [hA2] at hw2'; cases hw2'
                    | some A2 =>
                      rw [hA2] at hw2'
                      cases hw1'
                      cases hw2'
                      have hzip := ih.2 s args1 args2 s' h s'' hext
                      have hargs : A1 = A2 :=
                        resolveList_congr args1 args2 hzip (by omega) hA1 hA2
                      rw [hargs]
          case Array.Array e1 e2 =>
            have h3 : unify fuel s e1 e2 = some (URes.ok s') := h
            have hes : Extends s'' s := hext.trans (unify_extends h3)
            have hw1 := resolve_walk hes (fuel + 1) hd1 hra
            have hw2 := resolve_walk hes (fuel + 1) hd2 hrb
            cases fa with
            | zero => cases hw1
            | succ fa' =>
              cases fb with
              | zero => cases hw2
              | succ fb' =>
                have hw1' : (match resolveTy s'' fa' e1 with
                             | some e' => some (Ty.Array e')
                             | none => none) = some ra := hw1
                have hw2' : (match resolveTy s'' fb' e2 with
                             | some e' => some (Ty.Array e')
                             | none => none) = some rb := hw2
                cases hE1 : resolveTy s'' fa' e1 with
                | none => rw [hE1] at hw1'; cases hw1'
                | some E1 =>
                  rw [hE1] at hw1'
                  cases hE2 : resolveTy s'' fb' e2 with
                  | none => rw [hE2] at hw2'; cases hw2'
                  | some E2 =>
                    rw [hE2] at hw2'
                    cases hw1'
                    cases hw2'
                    have helem : E1 = E2 :=
                      ih.1 s e1 e2 s' h3 s'' hext fa' E1 fb' E2 hE1 hE2
                    rw [helem]
          all_goals first
            | exact sound_same_root h hext hd1 hd2 hra hrb
            | exact sound_var_arm h hext hd1 hd2 hra hrb
            | exact (sound_var_arm h hext hd2 hd1 hrb hra).symm
            | simp at h
    · intro s l1 l2 s' h s'' hext p hp fa ra fb rb hra hrb
      cases l1 with
      | nil => simp at hp
      | cons a ts1 =>
        cases l2 with
        | nil => simp at hp
        | cons b ts2 =>
          have h2 : (match unify fuel s a b with
                     | none => none
                     | some (URes.ok s0) => unifyList fuel s0 ts1 ts2
                     | some r0 => some r0) = some (URes.ok s') := h
          cases hx : unify fuel s a b with
          | none => rw [hx] at h2; cases h2
          | some r0 =>
            rw [hx] at h2
            cases r0 with
            | err s0 e0 => simp at h2
            | ok s1 =>
              have htail : unifyList fuel s1 ts1 ts2 = some (URes.ok s') := h2
              rw [List.zip_cons_cons] at hp
              rcases List.mem_cons.mp hp with hph | hpt
              · subst hph
                have hext_s'_s1 : Extends s' s1 :=
                  (unify_extends_all fuel).2 s1 ts1 ts2 (URes.ok s') htail
                exact ih.1 s a b s1 hx s'' (hext.trans hext_s'_s1) fa ra fb rb hra hrb
              · exact ih.2 s1 ts1 ts2 s' htail s'' hext p hpt fa ra fb rb hra hrb

/-- No cycle is reachable by dereference: every `deref_ty` call on any
    type terminates (with enough fuel).  This is the invariant of the
    substitution environment that makes the source's unbounded loops
    terminate. -/
def DerefTotal (s : Subst) : Prop :=
  ∀ t : Ty, ∃ f : Nat, (derefTy s f t).isSome = true

/-- The empty substitution is dereference-total. -/
theorem derefTotal_nil : DerefTotal [] := by
  intro t
  refine ⟨0, ?_⟩
  cases t <;> simp [derefTy, lookupS]

/-- Inserting a binding for an unbound variable after a negative occurs
    check preserves dereference-totality: a chain that reached `v` now
    continues into the bound type, whose own chain cannot come back to
    `v` precisely because the occurs check was negative. -/
theorem DerefTotal.insert {s : Subst} {v : Nat} {d : Ty} (hD : DerefTotal s)
    (hv : lookupS s v = none) {F : Nat} (hocc : occursCheck s v F d = some false) :
    DerefTotal ((v, d) :: s) := by
  intro t
  obtain ⟨f, hf⟩ := hD t
  cases hr : derefTy s f t with
  | none => rw [hr] at hf; simp at hf
  | some r =>
    by_cases hrv : r = Ty.Var v
    · subst hrv
      cases d with
      | Var w =>
        obtain ⟨f2, hf2⟩ := hD (Ty.Var w)
        cases hr2 : derefTy s f2 (Ty.Var w) with
        | none => rw [hr2] at hf2; simp at hf2
        | some r2 =>
          have hr2v : r2 ≠ Ty.Var v := occursCheck_false_root hocc hr2
          have hstep : derefTy ((v, Ty.Var w) :: s) f2 (Ty.Var w) = some r2 :=
            derefTy_ext hv f2 hr2 hr2v
          refine ⟨f + f2 + 1, ?_⟩
          rw [derefTy_ext_comp hv f hr hstep]
          rfl
      | Unit =>
        refine ⟨f + 0 + 1, ?_⟩
        rw [derefTy_ext_comp hv f hr (derefTy_unit _ 0)]
        rfl
      | Bool =>
        refine ⟨f + 0 + 1, ?_⟩
        rw [derefTy_ext_comp hv f hr (derefTy_bool _ 0)]
        rfl
      | Int =>
        refine ⟨f + 0 + 1, ?_⟩
        rw [derefTy_ext_comp hv f hr (derefTy_int _ 0)]
        rfl
      | Float =>
        refine ⟨f + 0 + 1, ?_⟩
        rw [derefTy_ext_comp hv f hr (derefTy_float _ 0)]
        rfl
      | Fun args ret =>
        refine ⟨f + 0 + 1, ?_⟩
        rw [derefTy_ext_comp hv f hr (derefTy_fun _ 0 args ret)]
        rfl
      | Tuple args =>
        refine ⟨f + 0 + 1, ?_⟩
        rw [derefTy_ext_comp hv f hr (derefTy_tuple _ 0 args)]
        rfl
      | Array elem =>
        refine ⟨f + 0 + 1, ?_⟩
        rw [derefTy_ext_comp hv f hr (derefTy_array _ 0 elem)]
        rfl
    · refine ⟨f, ?_⟩
      rw [derefTy_ext hv f hr hrv]
      rfl

/-- Dispatch: an untouched success preserves dereference-totality. -/
theorem derefTotal_of_ok {s : Subst} {r : URes} (hD : DerefTotal s)
    (h : (some (URes.ok s) : Option URes) = some r) : DerefTotal r.subst := by
  cases h; exact hD

/-- Dispatch: an error leaves the substitution, hence its totality. -/
theorem derefTotal_of_err {s : Subst} {e : TypeErr} {r : URes} (hD : DerefTotal s)
    (h : (some (URes.err s e) : Option URes) = some r) : DerefTotal r.subst := by
  cases h; exact hD

/-- Dispatch: the variable-binding arm preserves dereference-totality
    because the occurs check ran (and was negative) before the insert. -/
theorem unifyVar_derefTotal {F : Nat} {s : Subst} {v : Nat} {d d1 d2 : Ty} {r : URes}
    (hD : DerefTotal s) (hv : lookupS s v = none)
    (h : unifyVar F s v d d1 d2 = some r) : DerefTotal r.subst := by
  rw [unifyVar] at h
  cases hx : occursCheck s v F d with
  | none => rw [hx] at h; cases h
  | some bb =>
    rw [hx] at h
    cases bb with
    | true => cases h; exact hD
    | false => cases h; exact hD.insert hv hx

/-- Every `unify` call (successful or failed) preserves the absence of
    dereference-reachable cycles, because the occurs check is performed
    before every variable-to-type insertion. -/
theorem unify_derefTotal_all : ∀ fuel : Nat,
    (∀ (s : Subst) (t1 t2 : Ty) (r : URes), DerefTotal s →
      unify fuel s t1 t2 = some r → DerefTotal r.subst) ∧
    (∀ (s : Subst) (l1 l2 : List Ty) (r : URes), DerefTotal s →
      unifyList fuel s l1 l2 = some r → DerefTotal r.subst) := by
  intro fuel
  induction fuel with
  | zero =>
    constructor
    · intro s t1 t2 r hD h
      cases h
    · intro s l1 l2 r hD h
      cases l1 with
      | nil => rw [unifyList_nil_left] at h; cases h; exact hD
      | cons a ts1 =>
        cases l2 with
        | nil => rw [unifyList_cons_nil] at h; cases h; exact hD
        | cons b ts2 => simp [unifyList] at h
  | succ fuel ih =>
    constructor
    · intro s t1 t2 r hD h
      rw [unify] at h
      cases hd1 : derefTy s (fuel + 1) t1 with
      | none => rw [hd1] at h; cases h
      | some d1 =>
        cases hd2 : derefTy s (fuel + 1) t2 with
        | none => rw [hd1, hd2] at h; cases h
        | some d2 =>
          rw [hd1, hd2] at h
          cases d1 <;> cases d2 <;> (try dsimp only at h)
          case Fun.Fun args1 ret1 args2 ret2 =>
            by_cases hlen : args1.length ≠ args2.length
            · rw [if_pos hlen] at h
              exact derefTotal_of_err hD h
            · rw [if_neg hlen] at h
              cases hx : unifyList fuel s args1 args2 with
              | none => rw [hx] at h; cases h
              | some r0 =>
                rw [hx] at h
                cases r0 with
                | ok s1 =>
                  have hD1 : DerefTotal s1 := ih.2 s args1 args2 (URes.ok s1) hD hx
                  exact ih.1 s1 ret1 ret2 r hD1 h
                | err s0 e0 =>
                  cases h
                  exact ih.2 s args1 args2 (URes.err s0 e0) hD hx
          case Var.Var v1 v2 =>
            by_cases hvv : v1 = v2
            · rw [if_pos hvv] at h
              exact derefTotal_of_ok hD h
            · rw [if_neg hvv] at h
              exact unifyVar_derefTotal hD (derefTy_root _ hd1) h
          case Tuple.Tuple args1 args2 =>
            by_cases hlen : args1.length ≠ args2.length
            · rw [if_pos hlen] at h
              exact derefTotal_of_err hD h
            · rw [if_neg hlen] at h
              exact ih.2 s args1 args2 r hD h
          case Array.Array e1 e2 =>
            exact ih.1 s e1 e2 r hD h
          all_goals first
            | exact derefTotal_of_ok hD h
            | exact derefTotal_of_err hD h
            | exact unifyVar_derefTotal hD (derefTy_root _ hd1) h
            | exact unifyVar_derefTotal hD (derefTy_root _ hd2) h
    · intro s l1 l2 r hD h
      cases l1 with
      | nil => rw [unifyList_nil_left] at h; cases h; exact hD
      | cons a ts1 =>
        cases l2 with
        | nil => rw [unifyList_cons_nil] at h; cases h; exact hD
        | cons b ts2 =>
          have h2 : (match unify fuel s a b with
                     | none => none
                     | some (URes.ok s0) => unifyList fuel s0 ts1 ts2
                     | some r0 => some r0) = some r := h
          cases hx : unify fuel s a b with
          | none => rw [hx] at h2; cases h2
          | some r0 =>
            rw [hx] at h2
            cases r0 with
            | ok s1 =>
              have hD1 : DerefTotal s1 := ih.1 s a b (URes.ok s1) hD hx
              exact ih.2 s1 ts1 ts2 r hD1 h2
            | err s0 e0 =>
              cases h2
              exact ih.1 s a b (URes.err s0 e0) hD hx

/-- `unifyList` is monotone in the fuel. -/
theorem unifyList_mono {fuel fuel' : Nat} {s : Subst} {l1 l2 : List Ty} {r : URes}
    (h : unifyList fuel s l1 l2 = some r) (hle : fuel ≤ fuel') :
    unifyList fuel' s l1 l2 = some r := by
  obtain ⟨k, rfl⟩ := Nat.le.dest hle
  exact (unify_mono_all fuel).2 s l1 l2 r k h

/-- Resolution factors through the dereference of its argument. -/
theorem resolve_deref {s : Subst} : ∀ (f : Nat) {t r : Ty},
    resolveTy s f t = some r →
    ∃ (g : Nat) (d : Ty), derefTy s g t = some d ∧ resolveTy s f d = some r := by
  intro f
  induction f with
  | zero => intro t r h; cases h
  | succ f ih =>
    intro t r h
    cases t
    case Var v =>
      cases hl : lookupS s v with
      | none => exact ⟨0, Ty.Var v, derefTy_var_none 0 hl, h⟩
      | some u =>
        rw [resolveTy_var, hl] at h
        obtain ⟨g, d, hd, hres⟩ := ih h
        refine ⟨g + 1, d, ?_, resolve_mono hres (by omega)⟩
        rw [derefTy_var_some_succ g hl]
        exact hd
    case Unit => exact ⟨0, Ty.Unit, by simp, h⟩
    case Bool => exact ⟨0, Ty.Bool, by simp, h⟩
    case Int => exact ⟨0, Ty.Int, by simp, h⟩
    case Float => exact ⟨0, Ty.Float, by simp, h⟩
    case Fun args ret => exact ⟨0, Ty.Fun args ret, by simp, h⟩
    case Tuple args => exact ⟨0, Ty.Tuple args, by simp, h⟩
    case Array elem => exact ⟨0, Ty.Array elem, by simp, h⟩

/-- Unification of a type with itself: whenever the substitution can fully
    resolve the type (no reachable cycle), `unify t t` succeeds and
    returns the substitution exactly unchanged. -/
theorem unify_self_all : ∀ f : Nat,
    (∀ (s : Subst) (t r : Ty), resolveTy s f t = some r →
      ∃ g : Nat, unify g s t t = some (URes.ok s)) ∧
    (∀ (s : Subst) (ts rs : List Ty), resolveList s f ts = some rs →
      ∃ g : Nat, unifyList g s ts ts = some (URes.ok s)) := by
  intro f
  induction f with
  | zero =>
    constructor
    · intro s t r h
      cases h
    · intro s ts rs h
      cases ts with
      | nil => exact ⟨0, unifyList_nil_left 0 s []⟩
      | cons t ts => simp [resolveList] at h
  | succ f ih =>
    constructor
    · intro s t r h
      obtain ⟨g, d, hd, hres⟩ := resolve_deref (f + 1) h
      cases d
      case Unit =>
        refine ⟨g + 1, ?_⟩
        rw [unify, derefTy_le hd (by omega : g ≤ g + 1)]
      case Bool =>
        refine ⟨g + 1, ?_⟩
        rw [unify, derefTy_le hd (by omega : g ≤ g + 1)]
      case Int =>
        refine ⟨g + 1, ?_⟩
        rw [unify, derefTy_le hd (by omega : g ≤ g + 1)]
      case Float =>
        refine ⟨g + 1, ?_⟩
        rw [unify, derefTy_le hd (by omega : g ≤ g + 1)]
      case Var w =>
        refine ⟨g + 1, ?_⟩
        rw [unify, derefTy_le hd (by omega : g ≤ g + 1)]
        dsimp only
        rw [if_pos rfl]
      case Fun args ret =>
        cases hresf : resolveList s f args with
        | none =>
          rw [show resolveTy s (f + 1) (Ty.Fun args ret) =
                (match resolveList s f args, resolveTy s f ret with
                 | some args', some ret' => some (Ty.Fun args' ret')
                 | _, _ => none) from rfl, hresf] at hres
          cases hres
        | some args' =>
          cases hresr : resolveTy s f ret with
          | none =>
            rw [show resolveTy s (f + 1) (Ty.Fun args ret) =
                  (match resolveList s f args, resolveTy s f ret with
                   | some args', some ret' => some (Ty.Fun args' ret')
                   | _, _ => none) from rfl, hresf, hresr] at hres
            cases hres
          | some ret' =>
            obtain ⟨gA, hgA⟩ := ih.2 s args args' hresf
            obtain ⟨gR, hgR⟩ := ih.1 s ret ret' hresr
            refine ⟨g + gA + gR + 1, ?_⟩
            rw [unify, derefTy_le hd (by omega : g ≤ g + gA + gR + 1)]
            dsimp only
            rw [if_neg (by simp)]
            rw [unifyList_mono hgA (by omega : gA ≤ g + gA + gR)]
            exact unify_mono hgR (by omega)
      case Tuple args =>
        cases hresf : resolveList s f args with
        | none =>
          rw [show resolveTy s (f + 1) (Ty.Tuple args) =
                (match resolveList s f args with
                 | some args' => some (Ty.Tuple args')
                 | none => none) from rfl, hresf] at hres
          cases hres
        | some args' =>
          obtain ⟨gA, hgA⟩ := ih.2 s args args' hresf
          refine ⟨g + gA + 1, ?_⟩
          rw [unify, derefTy_le hd (by omega : g ≤ g + gA + 1)]
          dsimp only
          rw [if_neg (by simp)]
          exact unifyList_mono hgA (by omega)
      case Array elem =>
        cases hrese : resolveTy s f elem with
        | none =>
          rw [show resolveTy s (f + 1) (Ty.Array elem) =
                (match resolveTy s f elem with
                 | some e' => some (Ty.Array e')
                 | none => none) from rfl, hrese] at hres
          cases hres
        | some e' =>
          obtain ⟨gE, hgE⟩ := ih.1 s elem e' hrese
          refine ⟨g + gE + 1, ?_⟩
          rw [unify, derefTy_le hd (by omega : g ≤ g + gE + 1)]
          dsimp only
          exact unify_mono hgE (by omega)
    · intro s ts rs h
      cases ts with
      | nil => exact ⟨0, unifyList_nil_left 0 s []⟩
      | cons t ts =>
        have h2 : (match resolveTy s f t, resolveList s f ts with
                   | some t', some ts' => some (t' :: ts')
                   | _, _ => none) = some rs := h
        cases hx : resolveTy s f t with
        | none => rw [hx] at h2; cases h2
        | some t' =>
          rw [hx] at h2
          cases hy : resolveList s f ts with
          | none => rw [hy] at h2; cases h2
          | some ts' =>
            obtain ⟨g1, hg1⟩ := ih.1 s t t' hx
            obtain ⟨g2, hg2⟩ := ih.2 s ts ts' hy
            refine ⟨g1 + g2 + 1, ?_⟩
            show (match unify (g1 + g2) s t t with
                  | none => none
                  | some (URes.ok s') => unifyList (g1 + g2) s' ts ts
                  | some r0 => some r0) = some (URes.ok s)
            rw [unify_mono hg1 (by omega)]
            exact unifyList_mono hg2 (by omega)

/-- A positive occurs check on `t` (whose root is not `Var v` itself)
    makes `unify (Var v) t` fail with `InfiniteType`, inserting nothing. -/
theorem unify_occurs_infinite {s : Subst} {v : Nat} {fo fd : Nat} {t d : Ty}
    (hocc : occursCheck s v fo t = some true)
    (hd : derefTy s fd t = some d) (hne : d ≠ Ty.Var v) :
    ∃ g : Nat, unify g s (Ty.Var v) t = some (URes.err s (TypeErr.InfiniteType (Ty.Var v) d)) := by
  have hv : lookupS s v = none := occursCheck_true_unbound hocc
  have hocc_d : occursCheck s v fo d = some true := occursCheck_deref hocc hd
  have hnw : ∀ w, d ≠ Ty.Var w := by
    intro w he
    subst he
    rw [occursCheck, derefTy_var_none fo (derefTy_root fd hd)] at hocc_d
    simp at hocc_d
    exact hne (by rw [hocc_d])
  refine ⟨fd + fo + 1, ?_⟩
  rw [unify, derefTy_var_none _ hv, derefTy_le hd (by omega : fd ≤ fd + fo + 1)]
  cases d
  case Var w => exact absurd rfl (hnw w)
  all_goals
    (dsimp only
     rw [unifyVar, occursCheck_mono hocc_d (by omega : fo ≤ fd + fo + 1)])

/-- Claim C2, as stated, is false: `occurs_check(v, t)` holds for an
    unbound `v` and `t = Var v` itself, yet `unify(Var v, Var v)` takes the
    equal-variables arm and succeeds instead of failing with
    `InfiniteType`. -/
theorem claim_C2_counterexample :
    occursCheck [] 0 5 (Ty.Var 0) = some true ∧
    unify 5 [] (Ty.Var 0) (Ty.Var 0) = some (URes.ok []) :=
  ⟨rfl, rfl⟩

/-- Claim C2 (amended): for every type variable `v` and type `t`, if
    `occurs_check(v, t)` holds and `t` does not dereference to `Var v`
    itself, then `unify(Var v, t)` fails with `InfiniteType`, and no
    variable-to-type insertion is made (the substitution in the error
    result is unchanged). -/
theorem claim_C2 {s : Subst} {v : Nat} {fo fd : Nat} {t d : Ty}
    (hocc : occursCheck s v fo t = some true)
    (hd : derefTy s fd t = some d) (hne : d ≠ Ty.Var v) :
    ∃ g : Nat, unify g s (Ty.Var v) t =
      some (URes.err s (TypeErr.InfiniteType (Ty.Var v) d)) :=
  unify_occurs_infinite hocc hd hne

/-- Witness for claim C2 at a concrete input: `v = 0`, `t = Array (Var 0)`
    in the empty substitution. -/
theorem claim_C2_witness :
    ∃ g : Nat, unify g [] (Ty.Var 0) (Ty.Array (Ty.Var 0)) =
      some (URes.err [] (TypeErr.InfiniteType (Ty.Var 0) (Ty.Array (Ty.Var 0)))) :=
  claim_C2
    (show occursCheck [] 0 5 (Ty.Array (Ty.Var 0)) = some true from rfl)
    (show derefTy [] 5 (Ty.Array (Ty.Var 0)) = some (Ty.Array (Ty.Var 0)) from rfl)
    (by decide)

/-- Claim C3, as stated, is false: after the successful unification of
    `Tuple [Int]` with `Tuple [Var 0]`, the shallow `deref_ty` leaves both
    sides unchanged — it only follows variable chains at the head — so the
    two dereferenced types are not structurally equal. -/
theorem claim_C3_counterexample :
    unify 5 [] (Ty.Tuple [Ty.Int]) (Ty.Tuple [Ty.Var 0]) = some (URes.ok [(0, Ty.Int)]) ∧
    derefTy [(0, Ty.Int)] 5 (Ty.Tuple [Ty.Int]) = some (Ty.Tuple [Ty.Int]) ∧
    derefTy [(0, Ty.Int)] 5 (Ty.Tuple [Ty.Var 0]) = some (Ty.Tuple [Ty.Var 0]) ∧
    Ty.Tuple [Ty.Int] ≠ Ty.Tuple [Ty.Var 0] :=
  ⟨rfl, rfl, rfl, by decide⟩

/-- Claim C3 (amended): if `unify(a, b)` succeeds then, in the resulting
    substitution environment, fully applying the substitution to `a` and
    to `b` (dereferencing extended recursively through the type
    constructors) yields structurally equal types. -/
theorem claim_C3 {fuel : Nat} {s : Subst} {t1 t2 : Ty} {s' : Subst}
    {fa : Nat} {ra : Ty} {fb : Nat} {rb : Ty}
    (h : unify fuel s t1 t2 = some (URes.ok s'))
    (hra : resolveTy s' fa t1 = some ra) (hrb : resolveTy s' fb t2 = some rb) :
    ra = rb :=
  (unify_sound_all fuel).1 s t1 t2 s' h s' (Extends.refl s') fa ra fb rb hra hrb

/-- Witness for claim C3 at a concrete input: unifying `Tuple [Int]` with
    `Tuple [Var 0]`; both sides resolve to `Tuple [Int]`. -/
theorem claim_C3_witness : Ty.Tuple [Ty.Int] = Ty.Tuple [Ty.Int] :=
  claim_C3
    (show unify 5 [] (Ty.Tuple [Ty.Int]) (Ty.Tuple [Ty.Var 0]) =
        some (URes.ok [(0, Ty.Int)]) from rfl)
    (show resolveTy [(0, Ty.Int)] 5 (Ty.Tuple [Ty.Int]) =
        some (Ty.Tuple [Ty.Int]) from rfl)
    (show resolveTy [(0, Ty.Int)] 5 (Ty.Tuple [Ty.Var 0]) =
        some (Ty.Tuple [Ty.Int]) from rfl)

/-- Claim C4: `unify(t, t)` succeeds and leaves the substitution
    environment exactly unchanged (no variable gains or changes a
    binding).  The hypothesis is the specification's own invariant on
    substitution environments — no cycle reachable by dereference —
    specialized to `t`: `t` can be fully resolved. -/
theorem claim_C4 {s : Subst} {f : Nat} {t r : Ty}
    (h : resolveTy s f t = some r) :
    ∃ g : Nat, unify g s t t = some (URes.ok s) :=
  (unify_self_all f).1 s t r h

/-- Witness for claim C4 at a concrete input: the function type
    `Fun [Var 1] Bool` in the substitution binding variable 1 to `Int`. -/
theorem claim_C4_witness :
    ∃ g : Nat, unify g [(1, Ty.Int)] (Ty.Fun [Ty.Var 1] Ty.Bool) (Ty.Fun [Ty.Var 1] Ty.Bool) =
      some (URes.ok [(1, Ty.Int)]) :=
  claim_C4
    (show resolveTy [(1, Ty.Int)] 5 (Ty.Fun [Ty.Var 1] Ty.Bool) =
        some (Ty.Fun [Ty.Int] Ty.Bool) from rfl)

/-- Claim C5: the substitution environment never contains a cycle
    reachable by dereference: the empty substitution is
    dereference-total, and every `unify` call — the only operation that
    inserts bindings, always after a negative occurs check — preserves
    dereference-totality, so `deref_ty` terminates on every type. -/
theorem claim_C5 :
    DerefTotal ([] : Subst) ∧
    (∀ (fuel : Nat) (s : Subst) (t1 t2 : Ty) (r : URes),
      DerefTotal s → unify fuel s t1 t2 = some r → DerefTotal r.subst) :=
  ⟨derefTotal_nil, fun fuel s t1 t2 r hD h => (unify_derefTotal_all fuel).1 s t1 t2 r hD h⟩

/-- Witness for claim C5 at a concrete input: one unify step from the
    empty substitution binding variable 0 to `Int`. -/
theorem claim_C5_witness : DerefTotal (URes.ok [(0, Ty.Int)]).subst :=
  claim_C5.2 3 [] (Ty.Var 0) Ty.Int (URes.ok [(0, Ty.Int)]) claim_C5.1
    (show unify 3 [] (Ty.Var 0) Ty.Int = some (URes.ok [(0, Ty.Int)]) from rfl)

/-- Modelled from the spec: the source AST (`Expr` of the missing
    src/parser.rs), with exactly the constructors consumed by
    `type_check`.  Float literals carry an opaque bit pattern. -/
inductive Expr where
  | Unit
  | Bool (b : Bool)
  | Int (i : Int)
  | Float (bits : Nat)
  | Not (e : Expr)
  | Neg (e : Expr)
  | Add (e1 e2 : Expr)
  | Sub (e1 e2 : Expr)
  | FNeg (e : Expr)
  | FAdd (e1 e2 : Expr)
  | FSub (e1 e2 : Expr)
  | FMul (e1 e2 : Expr)
  | FDiv (e1 e2 : Expr)
  | Eq (e1 e2 : Expr)
  | Le (e1 e2 : Expr)
  | If (e1 e2 e3 : Expr)
  | Let (bndr : Var) (rhs body : Expr)
  | Var (v : Var)
  | LetRec (bndr : Var) (args : List Var) (rhs body : Expr)
  | App (fn : Expr) (args : List Expr)
  | Tuple (args : List Expr)
  | LetTuple (bndrs : List Var) (rhs body : Expr)
  | Array (e1 e2 : Expr)
  | Get (e1 e2 : Expr)
  | Put (e1 e2 e3 : Expr)

/-- The type environment returned by the checker
    (`TypeEnv = FxHashMap<Var, Type>`), as an association list in
    insertion order. -/
abbrev TyEnv := List (Var × Ty)

/-- `HashMap::insert`: overwrite in place, or append a new entry. -/
def envInsert : TyEnv → Var → Ty → TyEnv
  | [], k, t => [(k, t)]
  | (k0, t0) :: env, k, t =>
    if k0 = k then (k, t) :: env else (k0, t0) :: envInsert env k t

/-- A scope entry (`Binder` in src/type_check.rs). -/
structure Binder where
  binder : Var
  ty : Ty

/-- Modelled from the spec: the lexical scope (`Locals` of the missing
    src/locals.rs): a stack of frames mapping display names to binders,
    searched innermost-first; the global frame sits at the bottom. -/
abbrev Scope := List (List (String × Binder))

/-- Name lookup inside one scope frame (latest addition first). -/
def frameGet : List (String × Binder) → String → Option Binder
  | [], _ => none
  | (n0, b) :: fr, n => if n0 = n then some b else frameGet fr n

/-- `Locals::get`: search the frames innermost-first. -/
def scopeGet : Scope → String → Option Binder
  | [], _ => none
  | fr :: rest, n =>
    match frameGet fr n with
    | some b => some b
    | none => scopeGet rest n

/-- `Locals::new_scope`: push an empty frame. -/
def scopeNew (sc : Scope) : Scope := [] :: sc

/-- `Locals::add`: add a binding to the innermost frame. -/
def scopeAdd (sc : Scope) (n : String) (b : Binder) : Scope :=
  match sc with
  | [] => [[(n, b)]]
  | fr :: rest => ((n, b) :: fr) :: rest

/-- `mk_type_env`: initial type environment with the built-ins, in the
    source's insertion order. -/
def mkTypeEnv : TyEnv :=
  [(Var.builtin "print_int", Ty.Fun [Ty.Int] Ty.Unit),
   (Var.builtin "print_newline", Ty.Fun [Ty.Unit] Ty.Unit),
   (Var.builtin "float_of_int", Ty.Fun [Ty.Int] Ty.Float),
   (Var.builtin "int_of_float", Ty.Fun [Ty.Float] Ty.Int),
   (Var.builtin "truncate", Ty.Fun [Ty.Float] Ty.Int),
   (Var.builtin "abs_float", Ty.Fun [Ty.Float] Ty.Float),
   (Var.builtin "sqrt", Ty.Fun [Ty.Float] Ty.Float),
   (Var.builtin "sin", Ty.Fun [Ty.Float] Ty.Float),
   (Var.builtin "cos", Ty.Fun [Ty.Float] Ty.Float)]

/-- Result of the type checker: `Result<T, TypeErr>`; `none`, as
    everywhere in this embedding, means the source has not terminated
    within the fuel. -/
inductive TRes (α : Type) where
  | ok (a : α)
  | err (e : TypeErr)

/-- Sequencing of checker steps (the `?` operator of the source). -/
def tbind {α β : Type} (x : Option (TRes α)) (f : α → Option (TRes β)) :
    Option (TRes β) :=
  match x with
  | none => none
  | some (TRes.err e) => some (TRes.err e)
  | some (TRes.ok a) => f a

/-- A `unify` call inside the checker: the error drops the substitution
    (the source returns early through `?`). -/
def tunify (fU : Nat) (s : Subst) (t1 t2 : Ty) : Option (TRes Subst) :=
  match unify fU s t1 t2 with
  | none => none
  | some (URes.ok s') => some (TRes.ok s')
  | some (URes.err _ e) => some (TRes.err e)

mutual
/-- The function `type_check` from src/type_check.rs, with the mutable
    state (substitution, type environment, fresh-tyvar counter) threaded
    explicitly; the scope is passed by value since every arm restores it.
    `fU` is the fuel handed to every `unify` call. -/
def typeCheck (fU : Nat) : Subst → TyEnv → Scope → Nat → Expr →
    Option (TRes (Ty × Subst × TyEnv × Nat))
  | s, env, _, c, Expr.Unit => some (TRes.ok (Ty.Unit, s, env, c))
  | s, env, _, c, Expr.Bool _ => some (TRes.ok (Ty.Bool, s, env, c))
  | s, env, _, c, Expr.Int _ => some (TRes.ok (Ty.Int, s, env, c))
  | s, env, _, c, Expr.Float _ => some (TRes.ok (Ty.Float, s, env, c))
  | s, env, sc, c, Expr.Not e =>
    tbind (typeCheck fU s env sc c e) fun (ty, s1, env1, c1) =>
    tbind (tunify fU s1 Ty.Bool ty) fun s2 =>
    some (TRes.ok (Ty.Bool, s2, env1, c1))
  | s, env, sc, c, Expr.Neg e =>
    tbind (typeCheck fU s env sc c e) fun (ty, s1, env1, c1) =>
    tbind (tunify fU s1 Ty.Int ty) fun s2 =>
    some (TRes.ok (Ty.Int, s2, env1, c1))
  | s, env, sc, c, Expr.Add e1 e2 =>
    tbind (typeCheck fU s env sc c e1) fun (t1, s1, env1, c1) =>
    tbind (typeCheck fU s1 env1 sc c1 e2) fun (t2, s2, env2, c2) =>
    tbind (tunify fU s2 Ty.Int t1) fun s3 =>
    tbind (tunify fU s3 Ty.Int t2) fun s4 =>
    some (TRes.ok (Ty.Int, s4, env2, c2))
  | s, env, sc, c, Expr.Sub e1 e2 =>
    tbind (typeCheck fU s env sc c e1) fun (t1, s1, env1, c1) =>
    tbind (typeCheck fU s1 env1 sc c1 e2) fun (t2, s2, env2, c2) =>
    tbind (tunify fU s2 Ty.Int t1) fun s3 =>
    tbind (tunify fU s3 Ty.Int t2) fun s4 =>
    some (TRes.ok (Ty.Int, s4, env2, c2))
  | s, env, sc, c, Expr.FNeg e =>
    tbind (typeCheck fU s env sc c e) fun (ty, s1, env1, c1) =>
    tbind (tunify fU s1 Ty.Float ty) fun s2 =>
    some (TRes.ok (Ty.Float, s2, env1, c1))
  | s, env, sc, c, Expr.FAdd e1 e2 =>
    tbind (typeCheck fU s env sc c e1) fun (t1, s1, env1, c1) =>
    tbind (typeCheck fU s1 env1 sc c1 e2) fun (t2, s2, env2, c2) =>
    tbind (tunify fU s2 Ty.Float t1) fun s3 =>
    tbind (tunify fU s3 Ty.Float t2) fun s4 =>
    some (TRes.ok (Ty.Float, s4, env2, c2))
  | s, env, sc, c, Expr.FSub e1 e2 =>
    tbind (typeCheck fU s env sc c e1) fun (t1, s1, env1, c1) =>
    tbind (typeCheck fU s1 env1 sc c1 e2) fun (t2, s2, env2, c2) =>
    tbind (tunify fU s2 Ty.Float t1) fun s3 =>
    tbind (tunify fU s3 Ty.Float t2) fun s4 =>
    some (TRes.ok (Ty.Float, s4, env2, c2))
  | s, env, sc, c, Expr.FMul e1 e2 =>
    tbind (typeCheck fU s env sc c e1) fun (t1, s1, env1, c1) =>
    tbind (typeCheck fU s1 env1 sc c1 e2) fun (t2, s2, env2, c2) =>
    tbind (tunify fU s2 Ty.Float t1) fun s3 =>
    tbind (tunify fU s3 Ty.Float t2) fun s4 =>
    some (TRes.ok (Ty.Float, s4, env2, c2))
  | s, env, sc, c, Expr.FDiv e1 e2 =>
    tbind (typeCheck fU s env sc c e1) fun (t1, s1, env1, c1) =>
    tbind (typeCheck fU s1 env1 sc c1 e2) fun (t2, s2, env2, c2) =>
    tbind (tunify fU s2 Ty.Float t1) fun s3 =>
    tbind (tunify fU s3 Ty.Float t2) fun s4 =>
    some (TRes.ok (Ty.Float, s4, env2, c2))
  | s, env, sc, c, Expr.Eq e1 e2 =>
    tbind (typeCheck fU s env sc c e1) fun (t1, s1, env1, c1) =>
    tbind (typeCheck fU s1 env1 sc c1 e2) fun (t2, s2, env2, c2) =>
    tbind (tunify fU s2 t1 t2) fun s3 =>
    some (TRes.ok (Ty.Bool, s3, env2, c2))
  | s, env, sc, c, Expr.Le e1 e2 =>
    tbind (typeCheck fU s env sc c e1) fun (t1, s1, env1, c1) =>
    tbind (typeCheck fU s1 env1 sc c1 e2) fun (t2, s2, env2, c2) =>
    tbind (tunify fU s2 t1 t2) fun s3 =>
    some (TRes.ok (Ty.Bool, s3, env2, c2))
  | s, env, sc, c, Expr.If e1 e2 e3 =>
    tbind (typeCheck fU s env sc c e1) fun (t1, s1, env1, c1) =>
    tbind (typeCheck fU s1 env1 sc c1 e2) fun (t2, s2, env2, c2) =>
    tbind (typeCheck fU s2 env2 sc c2 e3) fun (t3, s3, env3, c3) =>
    tbind (tunify fU s3 t1 Ty.Bool) fun s4 =>
    tbind (tunify fU s4 t2 t3) fun s5 =>
    some (TRes.ok (t2, s5, env3, c3))
  | s, env, sc, c, Expr.Let bndr rhs body =>
    tbind (typeCheck fU s (envInsert env bndr (Ty.Var c)) sc (c + 1) rhs)
      fun (rt, s1, env1, c1) =>
    tbind (tunify fU s1 (Ty.Var c) rt) fun s2 =>
    typeCheck fU s2 env1 (scopeAdd (scopeNew sc) bndr.name ⟨bndr, Ty.Var c⟩) c1 body
  | s, env, sc, c, Expr.Var v =>
    match scopeGet sc v.name with
    | some b => some (TRes.ok (b.ty, s, env, c))
    | none => some (TRes.err (TypeErr.UnboundVar v))
  | s, env, sc, c, Expr.LetRec bndr args rhs body =>
    tbind
      (typeCheck fU s
        (envInsert env bndr
          (Ty.Fun ((List.range args.length).map (fun i => Ty.Var (c + i)))
            (Ty.Var (c + args.length))))
        ((args.zip ((List.range args.length).map (fun i => Ty.Var (c + i)))).foldl
          (fun sc2 p => scopeAdd sc2 p.1.name ⟨p.1, p.2⟩)
          (scopeNew
            (scopeAdd (scopeNew sc) bndr.name
              ⟨bndr,
               Ty.Fun ((List.range args.length).map (fun i => Ty.Var (c + i)))
                 (Ty.Var (c + args.length))⟩)))
        (c + args.length + 1) rhs)
      fun (rt, s1, env1, c1) =>
    tbind (tunify fU s1 (Ty.Var (c + args.length)) rt) fun s2 =>
    typeCheck fU s2 env1
      (scopeAdd (scopeNew sc) bndr.name
        ⟨bndr,
         Ty.Fun ((List.range args.length).map (fun i => Ty.Var (c + i)))
           (Ty.Var (c + args.length))⟩)
      c1 body
  | s, env, sc, c, Expr.App fn args =>
    tbind (typeCheckList fU s env sc (c + 1) args) fun (arg_tys, s1, env1, c1) =>
    tbind (typeCheck fU s1 env1 sc c1 fn) fun (ft, s2, env2, c2) =>
    tbind (tunify fU s2 (Ty.Fun arg_tys (Ty.Var c)) ft) fun s3 =>
    some (TRes.ok (Ty.Var c, s3, env2, c2))
  | s, env, sc, c, Expr.Tuple args =>
    tbind (typeCheckList fU s env sc c args) fun (arg_tys, s1, env1, c1) =>
    some (TRes.ok (Ty.Tuple arg_tys, s1, env1, c1))
  | s, env, sc, c, Expr.LetTuple bndrs rhs body =>
    tbind
      (typeCheck fU s
        ((bndrs.zip ((List.range bndrs.length).map (fun i => Ty.Var (c + i)))).foldl
          (fun env2 p => envInsert env2 p.1 p.2) env)
        sc (c + bndrs.length) rhs)
      fun (rt, s1, env1, c1) =>
    tbind
      (tunify fU s1 rt
        (Ty.Tuple ((List.range bndrs.length).map (fun i => Ty.Var (c + i)))))
      fun s2 =>
    typeCheck fU s2 env1
      ((bndrs.zip ((List.range bndrs.length).map (fun i => Ty.Var (c + i)))).foldl
        (fun sc2 p => scopeAdd sc2 p.1.name ⟨p.1, p.2⟩) (scopeNew sc))
      c1 body
  | s, env, sc, c, Expr.Array e1 e2 =>
    tbind (typeCheck fU s env sc c e1) fun (t1, s1, env1, c1) =>
    tbind (tunify fU s1 t1 Ty.Int) fun s2 =>
    tbind (typeCheck fU s2 env1 sc c1 e2) fun (t2, s3, env2, c2) =>
    some (TRes.ok (Ty.Array t2, s3, env2, c2))
  | s, env, sc, c, Expr.Get e1 e2 =>
    tbind (typeCheck fU s env sc (c + 1) e1) fun (t1, s1, env1, c1) =>
    tbind (tunify fU s1 t1 (Ty.Array (Ty.Var c))) fun s2 =>
    tbind (typeCheck fU s2 env1 sc c1 e2) fun (t2, s3, env2, c2) =>
    tbind (tunify fU s3 t2 Ty.Int) fun s4 =>
    some (TRes.ok (Ty.Var c, s4, env2, c2))
  | s, env, sc, c, Expr.Put e1 e2 e3 =>
    tbind (typeCheck fU s env sc (c + 1) e1) fun (t1, s1, env1, c1) =>
    tbind (tunify fU s1 t1 (Ty.Array (Ty.Var c))) fun s2 =>
    tbind (typeCheck fU s2 env1 sc c1 e2) fun (t2, s3, env2, c2) =>
    tbind (tunify fU s3 t2 Ty.Int) fun s4 =>
    tbind (typeCheck fU s4 env2 sc c2 e3) fun (t3, s5, env3, c3) =>
    tbind (tunify fU s5 t3 (Ty.Var c)) fun s6 =>
    some (TRes.ok (Ty.Unit, s6, env3, c3))

/-- Checking a list of expressions in order, accumulating their types
    (the `for arg in args` loops of `App` and `Tuple`). -/
def typeCheckList (fU : Nat) : Subst → TyEnv → Scope → Nat → List Expr →
    Option (TRes (List Ty × Subst × TyEnv × Nat))
  | s, env, _, c, [] => some (TRes.ok ([], s, env, c))
  | s, env, sc, c, e :: es =>
    tbind (typeCheck fU s env sc c e) fun (t, s1, env1, c1) =>
    tbind (typeCheckList fU s1 env1 sc c1 es) fun (ts, s2, env2, c2) =>
    some (TRes.ok (t :: ts, s2, env2, c2))
end

/-- Normalization of every entry of the type environment (the
    `for ty in ty_env.values_mut()` loop of `type_check_pgm`). -/
def normEnv (s : Subst) (fN : Nat) : TyEnv → Option TyEnv
  | [] => some []
  | (v, t) :: env =>
    match normTy s fN t, normEnv s fN env with
    | some t', some env' => some ((v, t') :: env')
    | _, _ => none

/-- The global scope built from the initial type environment (the
    `global_scope` loop of `type_check_pgm`). -/
def globalScope : Scope :=
  [mkTypeEnv.map (fun p => (p.1.name, Binder.mk p.1 p.2))]

/-- The function `type_check_pgm` from src/type_check.rs: run inference
    from the built-in environment and the empty substitution, unify the
    program's type with `Unit`, then normalize every entry of the type
    environment.  `fU` is the fuel for `unify` calls, `fN` the fuel for
    the final normalization. -/
def typeCheckPgm (fU fN : Nat) (e : Expr) : Option (TRes TyEnv) :=
  match typeCheck fU [] mkTypeEnv globalScope 0 e with
  | none => none
  | some (TRes.err er) => some (TRes.err er)
  | some (TRes.ok (ty, s, env, _)) =>
    match unify fU s Ty.Unit ty with
    | none => none
    | some (URes.err _ er) => some (TRes.err er)
    | some (URes.ok s') =>
      match normEnv s' fN env with
      | none => none
      | some env' => some (TRes.ok env')

/-- Every type produced by `norm_ty` is ground (types and lists
    bundled): the variable case can only return through a recursive call
    on the dereferenced type, and the base cases are atoms. -/
theorem normTy_ground_all : ∀ f : Nat,
    (∀ (s : Subst) (t r : Ty), normTy s f t = some r → isGround r = true) ∧
    (∀ (s : Subst) (ts rs : List Ty), normList s f ts = some rs → isGroundList rs = true) := by
  intro f
  induction f with
  | zero =>
    constructor
    · intro s t r h
      cases t with
      | Unit => cases h; rfl
      | Bool => cases h; rfl
      | Int => cases h; rfl
      | Float => cases h; rfl
      | Fun args ret => cases h
      | Tuple args => cases h
      | Array elem => cases h
      | Var v => cases h
    · intro s ts rs h
      cases ts with
      | nil => cases h; rfl
      | cons t ts => cases h
  | succ f ih =>
    constructor
    · intro s t r h
      cases t with
      | Unit => cases h; rfl
      | Bool => cases h; rfl
      | Int => cases h; rfl
      | Float => cases h; rfl
      | Fun args ret =>
        have h2 : (match normList s f args, normTy s f ret with
                   | some args', some ret' => some (Ty.Fun args' ret')
                   | _, _ => none) = some r := h
        cases hx : normList s f args with
        | none => rw [hx] at h2; cases h2
        | some args' =>
          rw [hx] at h2
          cases hy : normTy s f ret with
          | none => rw [hy] at h2; cases h2
          | some ret' =>
            rw [hy] at h2
            cases h2
            rw [isGround, ih.2 s args args' hx, ih.1 s ret ret' hy]
            rfl
      | Tuple args =>
        have h2 : (match normList s f args with
                   | some args' => some (Ty.Tuple args')
                   | none => none) = some r := h
        cases hx : normList s f args with
        | none => rw [hx] at h2; cases h2
        | some args' =>
          rw [hx] at h2
          cases h2
          rw [isGround]
          exact ih.2 s args args' hx
      | Array elem =>
        have h2 : (match normTy s f elem with
                   | some e' => some (Ty.Array e')
                   | none => none) = some r := h
        cases hx : normTy s f elem with
        | none => rw [hx] at h2; cases h2
        | some e' =>
          rw [hx] at h2
          cases h2
          rw [isGround]
          exact ih.1 s elem e' hx
      | Var v =>
        have h2 : (match derefTy s (f + 1) (Ty.Var v) with
                   | none => none
                   | some d => normTy s f d) = some r := h
        cases hx : derefTy s (f + 1) (Ty.Var v) with
        | none => rw [hx] at h2; cases h2
        | some d =>
          rw [hx] at h2
          exact ih.1 s d r h2
    · intro s ts rs h
      cases ts with
      | nil => cases h; rfl
      | cons t ts =>
        have h2 : (match normTy s f t, normList s f ts with
                   | some t', some ts' => some (t' :: ts')
                   | _, _ => none) = some rs := h
        cases hx : normTy s f t with
        | none => rw [hx] at h2; cases h2
        | some t' =>
          rw [hx] at h2
          cases hy : normList s f ts with
          | none => rw [hy] at h2; cases h2
          | some ts' =>
            rw [hy] at h2
            cases h2
            rw [isGroundList, ih.1 s t t' hx, ih.2 s ts ts' hy]
            rfl

/-- A normalized type environment contains only ground types. -/
theorem normEnv_ground {s : Subst} {fN : Nat} : ∀ {env env' : TyEnv},
    normEnv s fN env = some env' → ∀ p ∈ env', isGround p.2 = true := by
  intro env
  induction env with
  | nil =>
    intro env' h p hp
    cases h
    cases hp
  | cons q env ih =>
    intro env' h p hp
    obtain ⟨v, t⟩ := q
    rw [normEnv] at h
    cases hx : normTy s fN t with
    | none => rw [hx] at h; cases h
    | some t' =>
      rw [hx] at h
      cases hy : normEnv s fN env with
      | none => rw [hy] at h; cases h
      | some env0 =>
        rw [hy] at h
        cases h
        rcases List.mem_cons.mp hp with hph | hpt
        · subst hph
          exact (normTy_ground_all fN).1 s t t' hx
        · exact ih hy p hpt

/-- `norm_ty` on a variable with no binding never returns: the source
    recursion `norm_ty(deref_ty(Var v))` reproduces `Var v` forever. -/
theorem normTy_unbound {s : Subst} {v : Nat} (hv : lookupS s v = none) :
    ∀ f : Nat, normTy s f (Ty.Var v) = none := by
  intro f
  induction f with
  | zero => rfl
  | succ f ih =>
    have hstep : normTy s (f + 1) (Ty.Var v) = normTy s f (Ty.Var v) := by
      show (match derefTy s (f + 1) (Ty.Var v) with
            | none => none
            | some d => normTy s f d) = normTy s f (Ty.Var v)
      rw [derefTy_var_none _ hv]
    rw [hstep, ih]

/-- A successful `normEnv` normalized every member. -/
theorem normEnv_mem {s : Subst} {fN : Nat} : ∀ {env env' : TyEnv},
    normEnv s fN env = some env' → ∀ p ∈ env, ∃ r, normTy s fN p.2 = some r := by
  intro env
  induction env with
  | nil =>
    intro env' _ p hp
    cases hp
  | cons q env ih =>
    intro env' h p hp
    obtain ⟨v, t⟩ := q
    rw [normEnv] at h
    cases hx : normTy s fN t with
    | none => rw [hx] at h; cases h
    | some t' =>
      rw [hx] at h
      cases hy : normEnv s fN env with
      | none => rw [hy] at h; cases h
      | some env0 =>
        rcases List.mem_cons.mp hp with hph | hpt
        · subst hph
          exact ⟨t', hx⟩
        · exact ih hy p hpt

/-- A successful `normList` normalized every member. -/
theorem normList_mem {s : Subst} : ∀ (ts : List Ty) (fN : Nat) (rs : List Ty),
    normList s fN ts = some rs → ∀ t ∈ ts, ∃ (g : Nat) (r : Ty), normTy s g t = some r := by
  intro ts
  induction ts with
  | nil =>
    intro fN rs h t ht
    cases ht
  | cons t0 ts ih =>
    intro fN rs h t ht
    cases fN with
    | zero => cases h
    | succ f =>
      have h2 : (match normTy s f t0, normList s f ts with
                 | some t', some ts' => some (t' :: ts')
                 | _, _ => none) = some rs := h
      cases hy : normTy s f t0 with
      | none => rw [hy] at h2; cases h2
      | some t' =>
        rw [hy] at h2
        cases hz : normList s f ts with
        | none => rw [hz] at h2; cases h2
        | some ts' =>
          rcases List.mem_cons.mp ht with hth | htt
          · subst hth
            exact ⟨f, t', hy⟩
          · exact ih f ts' hz t htt

/-- A successful `norm_ty` on a function type normalized every argument. -/
theorem normTy_fun_args {s : Subst} {fN : Nat} {args : List Ty} {ret : Ty} {r : Ty}
    (h : normTy s fN (Ty.Fun args ret) = some r) :
    ∀ a ∈ args, ∃ (g : Nat) (r' : Ty), normTy s g a = some r' := by
  cases fN with
  | zero => cases h
  | succ f =>
    have h2 : (match normList s f args, normTy s f ret with
               | some args', some ret' => some (Ty.Fun args' ret')
               | _, _ => none) = some r := h
    cases hx : normList s f args with
    | none => rw [hx] at h2; cases h2
    | some args' =>
      intro a ha
      exact normList_mem args f args' hx a ha

/-- Unifying `Unit` against a ground type other than `Unit` fails with
    exactly `UnifyError(Unit, ty)`: a ground type is its own dereference
    root, and no arm other than the catch-all applies. -/
theorem unify_unit_ground {fU : Nat} {s : Subst} {ty : Ty} (hfU : 1 ≤ fU)
    (hg : isGround ty = true) (hne : ty ≠ Ty.Unit) :
    unify fU s Ty.Unit ty = some (URes.err s (TypeErr.UnifyError Ty.Unit ty)) := by
  obtain ⟨f, rfl⟩ : ∃ f, fU = f + 1 := ⟨fU - 1, by omega⟩
  have hd2 : derefTy s (f + 1) ty = some ty := by
    cases ty
    case Var v => rw [isGround] at hg; cases hg
    all_goals simp
  rw [unify, derefTy_unit, hd2]
  cases ty
  case Unit => exact absurd rfl hne
  case Var v => rw [isGround] at hg; cases hg
  all_goals rfl

/-- Claim C6: `type_check_pgm` unifies the inferred type of the top-level
    expression with `Unit`; a program whose top-level expression infers to
    a ground type other than `Unit` is rejected with `UnifyError` (not
    `InfiniteType` or `UnboundVar`), carrying `Unit` and that type. -/
theorem claim_C6 {fU fN : Nat} {e : Expr} {ty : Ty} {s : Subst} {env : TyEnv} {c : Nat}
    (hfU : 1 ≤ fU)
    (h : typeCheck fU [] mkTypeEnv globalScope 0 e = some (TRes.ok (ty, s, env, c)))
    (hg : isGround ty = true) (hne : ty ≠ Ty.Unit) :
    typeCheckPgm fU fN e = some (TRes.err (TypeErr.UnifyError Ty.Unit ty)) := by
  unfold typeCheckPgm
  rw [h]
  dsimp only
  rw [unify_unit_ground hfU hg hne]

/-- Witness for claim C6 at a concrete input: the program `42` infers to
    `Int` and is rejected with `UnifyError(Unit, Int)`. -/
theorem claim_C6_witness :
    typeCheckPgm 10 5 (Expr.Int 42) = some (TRes.err (TypeErr.UnifyError Ty.Unit Ty.Int)) :=
  claim_C6 (by omega)
    (show typeCheck 10 [] mkTypeEnv globalScope 0 (Expr.Int 42) =
        some (TRes.ok (Ty.Int, [], mkTypeEnv, 0)) from rfl)
    rfl (by decide)

/-- Claim C1 (amended): every type in a returned `TypeEnv` is ground —
    this part holds because `norm_ty` can only return ground types. -/
theorem claim_C1 {fU fN : Nat} {e : Expr} {env : TyEnv}
    (h : typeCheckPgm fU fN e = some (TRes.ok env)) :
    ∀ p ∈ env, isGround p.2 = true := by
  unfold typeCheckPgm at h
  cases hx : typeCheck fU [] mkTypeEnv globalScope 0 e with
  | none => rw [hx] at h; cases h
  | some t0 =>
    rw [hx] at h
    cases t0 with
    | err er => simp at h
    | ok q =>
      obtain ⟨ty, s, env0, c⟩ := q
      dsimp only at h
      cases hu : unify fU s Ty.Unit ty with
      | none => rw [hu] at h; cases h
      | some r =>
        rw [hu] at h
        cases r with
        | err s0 er => simp at h
        | ok s' =>
          dsimp only at h
          cases hn : normEnv s' fN env0 with
          | none => rw [hn] at h; cases h
          | some env' =>
            rw [hn] at h
            cases h
            exact normEnv_ground hn

/-- A program with a type variable that remains unresolved after
    inference: `let rec f x = () in ()` leaves the argument type of `f`
    unconstrained. -/
def pgmUnresolved : Expr :=
  Expr.LetRec (Var.mk "f" 1) [Var.mk "x" 2] Expr.Unit Expr.Unit

/-- Claim C1, as stated, is false in its normalization part: `norm_ty`
    never resolves an unresolved type variable to `Unit` (or to anything:
    it has no result at all, modelling the source's infinite recursion),
    and consequently `type_check_pgm` returns no `TypeEnv` for a program
    whose inference leaves a variable unresolved, rather than one with
    that variable resolved to `Unit`. -/
theorem claim_C1_counterexample :
    (¬ ∃ (f : Nat) (r : Ty), normTy [] f (Ty.Var 0) = some r) ∧
    (¬ ∃ (fN : Nat) (env : TyEnv), typeCheckPgm 100 fN pgmUnresolved = some (TRes.ok env)) := by
  constructor
  · rintro ⟨f, r, h⟩
    rw [normTy_unbound (show lookupS [] 0 = none from rfl) f] at h
    cases h
  · rintro ⟨fN, env, h⟩
    have hTC : typeCheck 100 [] mkTypeEnv globalScope 0 pgmUnresolved =
        some (TRes.ok (Ty.Unit, [(1, Ty.Unit)],
          mkTypeEnv ++ [(Var.mk "f" 1, Ty.Fun [Ty.Var 0] (Ty.Var 1))], 2)) := rfl
    unfold typeCheckPgm at h
    rw [hTC] at h
    dsimp only at h
    rw [show unify 100 [(1, Ty.Unit)] Ty.Unit Ty.Unit =
        some (URes.ok [(1, Ty.Unit)]) from rfl] at h
    dsimp only at h
    cases hn : normEnv [(1, Ty.Unit)] fN
        (mkTypeEnv ++ [(Var.mk "f" 1, Ty.Fun [Ty.Var 0] (Ty.Var 1))]) with
    | none => rw [hn] at h; cases h
    | some env' =>
      obtain ⟨r, hr⟩ :=
        normEnv_mem hn (Var.mk "f" 1, Ty.Fun [Ty.Var 0] (Ty.Var 1)) (by simp)
      obtain ⟨g, r', hr'⟩ := normTy_fun_args hr (Ty.Var 0) (by simp)
      rw [normTy_unbound (show lookupS [(1, Ty.Unit)] 0 = none from rfl) g] at hr'
      cases hr'

/-- Witness for claim C1 at a concrete input: the program `()` succeeds
    and its returned environment (the built-ins) is ground; in particular
    the type of `print_int`. -/
theorem claim_C1_witness : isGround (Ty.Fun [Ty.Int] Ty.Unit) = true :=
  claim_C1
    (show typeCheckPgm 10 5 Expr.Unit = some (TRes.ok mkTypeEnv) from rfl)
    (Var.builtin "print_int", Ty.Fun [Ty.Int] Ty.Unit) (by simp [mkTypeEnv, Var.builtin])

/-! ## Code generation (`codegen.rs`)

The remaining claims concern `codegen.rs`.  Its input IR (`lower::Fun`,
`lower::Block`, `lower::Expr`, ...) and the cranelift API it drives
(`Module`, `FunctionBuilder`) come from crates that are not part of the
source tree, so those are modelled from the spec; the functions of
`codegen.rs` itself (`init_module_env`, `Env::use_var`, `codegen_expr`,
`declare_malloc`, `rep_type_abi`) are transcribed from the source.

The cranelift builder is modelled as an abstract event trace: each call
into the `FunctionBuilder` appends an `Event`; value, block and signature
ids are allocated from counters exactly in call order.  This captures
which instructions are emitted, in which block, in which order, and which
values they define, which is what claims C7 and C8 are about. -/

namespace Cg

/-- Modelled from the spec: `cg_types::RepType`, the machine-level
    representation of a value: a 64-bit word or a 64-bit float. -/
inductive RepType where
  | Word
  | Float
deriving DecidableEq

/-- Modelled from the spec: `cg_types::RepType::from(&Type)` — every
    source type is represented as a word except `Float`. -/
def repTypeOfTy : Ty → RepType
  | Ty.Float => RepType.Float
  | _ => RepType.Word

/-- Modelled from the spec: the cranelift ir types used by `codegen.rs`
    (`I64`, `F64`, `I32`). -/
inductive CLType where
  | I64
  | F64
  | I32
deriving DecidableEq

/-- `rep_type_abi` of `codegen.rs`. -/
def rep_type_abi : RepType → CLType
  | RepType.Word => CLType.I64
  | RepType.Float => CLType.F64

/-- Modelled from the spec: `cranelift_module::Linkage` (the variants
    `codegen.rs` uses). -/
inductive Linkage where
  | Import
  | Local
  | Export
deriving DecidableEq

/-- Modelled from the spec: `cranelift_codegen::isa::CallConv` (only
    `SystemV` is used). -/
inductive CallConv where
  | SystemV
deriving DecidableEq

/-- Modelled from the spec: a cranelift `Signature`: parameter and return
    ABI types plus the calling convention. -/
structure Sig where
  params : List CLType
  returns : List CLType
  callConv : CallConv
deriving DecidableEq

/-- Modelled from the spec: a data declaration recorded by
    `Module::declare_data(name, linkage, writable, tls, None)`. -/
structure DataDecl where
  name : String
  linkage : Linkage
  writable : Bool
  tls : Bool
deriving DecidableEq

/-- Modelled from the spec: a function declaration recorded by
    `Module::declare_function(name, linkage, sig)`. -/
structure FuncDecl where
  name : String
  linkage : Linkage
  sig : Sig
deriving DecidableEq

/-- Modelled from the spec: the module-level state of
    `cranelift_module::Module`: the sequences of declared data objects
    and functions.  `DataId` and `FuncId` are indices into them. -/
structure Module where
  datas : List DataDecl
  funcs : List FuncDecl
deriving DecidableEq

/-- Modelled from the spec: `Module::declare_data`, returning the fresh
    `DataId`. -/
def Module.declareData (m : Module) (name : String) (l : Linkage)
    (writable tls : Bool) : Nat × Module :=
  (m.datas.length, { m with datas := m.datas ++ [⟨name, l, writable, tls⟩] })

/-- Modelled from the spec: `Module::declare_function`, returning the
    fresh `FuncId`. -/
def Module.declareFunction (m : Module) (name : String) (l : Linkage)
    (sig : Sig) : Nat × Module :=
  (m.funcs.length, { m with funcs := m.funcs ++ [⟨name, l, sig⟩] })

/-- Modelled from the spec: the part of `ctx::Ctx` that `codegen.rs`
    reads: the registered built-ins (var id, type id), per-variable
    symbol name, name, representation type, source type and uniq, and
    the fresh-uniq counter.  Variables are identified by `Nat` var ids. -/
structure Ctx where
  builtins : List (Nat × Nat)
  varSymbol : Nat → String
  varName : Nat → String
  varRep : Nat → RepType
  varTy : Nat → Ty
  varUniq : Nat → Nat
  fresh : Nat

/-- Modelled from the spec: `ctx.fresh_uniq()`. -/
def Ctx.freshUniq (ctx : Ctx) : Nat × Ctx :=
  (ctx.fresh, { ctx with fresh := ctx.fresh + 1 })

/-- Modelled from the spec: `lower::Atom`. -/
inductive Atom where
  | Unit
  | Int (i : Int)
  | Float (bits : Nat)
  | Var (v : Nat)
deriving DecidableEq

/-- Modelled from the spec: `common::IntBinOp`. -/
inductive IntBinOp where
  | Add
  | Sub
  | Mul
  | Div
deriving DecidableEq

/-- Modelled from the spec: `common::FloatBinOp`. -/
inductive FloatBinOp where
  | Add
  | Sub
  | Mul
  | Div
deriving DecidableEq

/-- Modelled from the spec: `common::Cmp`. -/
inductive Cmp where
  | Equal
  | NotEqual
  | LessThan
  | LessThanOrEqual
  | GreaterThan
  | GreaterThanOrEqual
deriving DecidableEq

/-- Modelled from the spec: `lower::Expr`, the right-hand sides consumed
    by `codegen_expr`.  Variables are var ids; tuple indices are field
    numbers. -/
inductive LExpr where
  | Atom (a : Atom)
  | IBinOp (op : IntBinOp) (arg1 arg2 : Nat)
  | FBinOp (op : FloatBinOp) (arg1 arg2 : Nat)
  | Neg (v : Nat)
  | FNeg (v : Nat)
  | App (fn : Nat) (args : List Nat) (retTy : RepType)
  | Tuple (len : Nat)
  | TuplePut (tuple idx v : Nat)
  | TupleGet (tuple idx : Nat)
  | ArrayAlloc (len elem : Nat)
  | ArrayGet (arr idx : Nat)
  | ArrayPut (arr idx v : Nat)
deriving DecidableEq

/-- Modelled from the spec: `lower::Fun` as far as `init_module_env`
    reads it: name, argument list and return representation type. -/
structure LFun where
  name : Nat
  args : List Nat
  returnType : RepType
deriving DecidableEq

/-- Modelled from the spec: `cranelift::IntCC` (the variants used). -/
inductive IntCC where
  | Equal
  | NotEqual
  | SignedLessThan
  | SignedLessThanOrEqual
  | SignedGreaterThan
  | SignedGreaterThanOrEqual
deriving DecidableEq

/-- `word_cond` of `codegen.rs`. -/
def word_cond : Cmp → IntCC
  | Cmp.Equal => IntCC.Equal
  | Cmp.NotEqual => IntCC.NotEqual
  | Cmp.LessThan => IntCC.SignedLessThan
  | Cmp.LessThanOrEqual => IntCC.SignedLessThanOrEqual
  | Cmp.GreaterThan => IntCC.SignedGreaterThan
  | Cmp.GreaterThanOrEqual => IntCC.SignedGreaterThanOrEqual

/-- Modelled from the spec: the instructions `codegen_expr` emits through
    `builder.ins()`.  Operands are value ids; `fref`/`dref`/`sig` are
    function, data and signature references. -/
inductive EInstr where
  | iconst (ty : CLType) (imm : Int)
  | f64const (bits : Nat)
  | iadd (a b : Nat)
  | isub (a b : Nat)
  | imul (a b : Nat)
  | sdiv (a b : Nat)
  | ineg (a : Nat)
  | fadd (a b : Nat)
  | fsub (a b : Nat)
  | fmul (a b : Nat)
  | fdiv (a b : Nat)
  | fneg (a : Nat)
  | call (fref : Nat) (args : List Nat)
  | callIndirect (sig : Nat) (callee : Nat) (args : List Nat)
  | funcAddr (ty : CLType) (fref : Nat)
  | globalValue (ty : CLType) (dref : Nat)
  | store (v ptr : Nat) (off : Int)
  | load (ty : CLType) (ptr : Nat) (off : Int)
  | loadComplex (ty : CLType) (addrs : List Nat) (off : Int)
  | storeComplex (v : Nat) (addrs : List Nat) (off : Int)
  | brIcmp (cc : IntCC) (a b : Nat) (dest : Nat)
  | fallthrough (dest : Nat)
  | jump (dest : Nat)
  | ret (v : Nat)
deriving DecidableEq

/-- Modelled from the spec: one observable call into the
    `FunctionBuilder`.  `inst b v i` records instruction `i` emitted
    while the builder's current block is `b`, defining value `v` (or
    none). -/
inductive Event where
  | createBlock (b : Nat)
  | switchTo (b : Nat)
  | seal (b : Nat)
  | declareVar (u : Nat) (ty : CLType)
  | defVar (u v : Nat)
  | useVar (b v u : Nat)
  | importSig (s : Nat) (sig : Sig)
  | inst (b : Nat) (v : Option Nat) (i : EInstr)
deriving DecidableEq

/-- Modelled from the spec: the `FunctionBuilder` state: counters for
    fresh value, block, and signature ids, the current block, and the
    trace of events so far. -/
structure FB where
  nextVal : Nat
  nextBlock : Nat
  nextSig : Nat
  curBlock : Nat
  events : List Event
deriving DecidableEq

/-- Modelled from the spec: emitting an instruction that defines a fresh
    value (`builder.ins().xxx(...)` used for its result). -/
def FB.emit (fb : FB) (i : EInstr) : Nat × FB :=
  (fb.nextVal,
   { fb with
     nextVal := fb.nextVal + 1,
     events := fb.events ++ [Event.inst fb.curBlock (some fb.nextVal) i] })

/-- Modelled from the spec: emitting an instruction with no used result
    (stores, branches, jumps). -/
def FB.emitNoVal (fb : FB) (i : EInstr) : FB :=
  { fb with events := fb.events ++ [Event.inst fb.curBlock none i] }

/-- Modelled from the spec: `builder.create_block()`. -/
def FB.createBlock (fb : FB) : Nat × FB :=
  (fb.nextBlock,
   { fb with
     nextBlock := fb.nextBlock + 1,
     events := fb.events ++ [Event.createBlock fb.nextBlock] })

/-- Modelled from the spec: `builder.switch_to_block(b)`. -/
def FB.switchToBlock (fb : FB) (b : Nat) : FB :=
  { fb with curBlock := b, events := fb.events ++ [Event.switchTo b] }

/-- Modelled from the spec: `builder.seal_block(b)`. -/
def FB.sealBlock (fb : FB) (b : Nat) : FB :=
  { fb with events := fb.events ++ [Event.seal b] }

/-- Modelled from the spec: `builder.declare_var(Variable::new(u), ty)`. -/
def FB.declareVar (fb : FB) (u : Nat) (ty : CLType) : FB :=
  { fb with events := fb.events ++ [Event.declareVar u ty] }

/-- Modelled from the spec: `builder.def_var(Variable::new(u), v)`. -/
def FB.defVar (fb : FB) (u v : Nat) : FB :=
  { fb with events := fb.events ++ [Event.defVar u v] }

/-- Modelled from the spec: `builder.use_var(Variable::new(u))`, which
    yields a fresh value for the variable in the current block. -/
def FB.useVarB (fb : FB) (u : Nat) : Nat × FB :=
  (fb.nextVal,
   { fb with
     nextVal := fb.nextVal + 1,
     events := fb.events ++ [Event.useVar fb.curBlock fb.nextVal u] })

/-- Modelled from the spec: `builder.import_signature(sig)`, returning a
    fresh `SigRef`. -/
def FB.importSignature (fb : FB) (sig : Sig) : Nat × FB :=
  (fb.nextSig,
   { fb with
     nextSig := fb.nextSig + 1,
     events := fb.events ++ [Event.importSig fb.nextSig sig] })

/-- `VarVal` of `codegen.rs`: what a variable in the global env maps to. -/
inductive VarVal where
  | Arg (v : Nat)
  | Fun (fid : Nat)
  | Data (did : Nat)
deriving DecidableEq

/-- `Env` of `codegen.rs` (a `FxHashMap<VarId, VarVal>`), modelled as an
    association list with first-match lookup; insertion prepends. -/
abbrev Env := List (Nat × VarVal)

/-- Lookup in the codegen `Env`. -/
def envLookup : Env → Nat → Option VarVal
  | [], _ => none
  | p :: ps, x => if p.1 = x then some p.2 else envLookup ps x

/-- `Env::use_var` of `codegen.rs`: an `Arg` is its value; a `Fun` is
    materialized with `func_addr` (from `declare_func_in_func`, modelled
    as the `FuncId` itself); a `Data` is materialized with
    `global_value` (from `declare_data_in_func`, modelled as the
    `DataId` itself); an unbound variable falls back to the builder
    variable named by the var's uniq. -/
def useVar (ctx : Ctx) (fb : FB) (env : Env) (var : Nat) : Nat × FB :=
  match envLookup env var with
  | some (VarVal.Arg v) => (v, fb)
  | some (VarVal.Fun fid) => fb.emit (EInstr.funcAddr CLType.I64 fid)
  | some (VarVal.Data did) => fb.emit (EInstr.globalValue CLType.I64 did)
  | none => fb.useVarB (ctx.varUniq var)

/-- `args.iter().map(|arg| env.use_var(..)).collect()` of the `App` arm:
    use each argument in order, threading the builder. -/
def useVarList (ctx : Ctx) (env : Env) : FB → List Nat → List Nat × FB
  | fb, [] => ([], fb)
  | fb, a :: rest =>
    let p := useVar ctx fb env a
    let q := useVarList ctx env p.2 rest
    (p.1 :: q.1, q.2)

/-- `declare_malloc` of `codegen.rs`. -/
def declare_malloc (m : Module) : Nat × Module :=
  m.declareFunction "malloc" Linkage.Import
    ⟨[CLType.I64], [CLType.I64], CallConv.SystemV⟩

/-- The built-in loop of `init_module_env`: each built-in registered in
    the `Ctx` is declared with
    `module.declare_data(symbol_name, Linkage::Import, false, false, None)`
    and bound in the env as `Data`. -/
def declBuiltins (ctx : Ctx) : Env → Module → List (Nat × Nat) → Env × Module
  | env, m, [] => (env, m)
  | env, m, b :: bs =>
    let p := m.declareData (ctx.varSymbol b.1) Linkage.Import false false
    declBuiltins ctx ((b.1, VarVal.Data p.1) :: env) p.2 bs

/-- The function loop of `init_module_env`: each `lower::Fun` is declared
    with `Linkage::Local` and its ABI signature, bound in the env as
    `Fun`; the function whose name is `main_id` is remembered, and it is
    asserted to have no arguments and `Word` return type.  Assertion
    failures and the final `expect` are modelled as `Except.error`. -/
def declFuns (ctx : Ctx) (mainId : Nat) :
    Module → Env → Option Nat → List LFun → Except String (Option Nat × Env × Module)
  | m, env, mainOpt, [] => Except.ok (mainOpt, env, m)
  | m, env, mainOpt, f :: fs =>
    let sig : Sig :=
      ⟨f.args.map (fun a => rep_type_abi (ctx.varRep a)),
       [rep_type_abi f.returnType], CallConv.SystemV⟩
    let p := (Module.declareFunction m (ctx.varName f.name) Linkage.Local sig)
    if f.name = mainId then
      if f.args = [] then
        if f.returnType = RepType.Word then
          declFuns ctx mainId p.2 ((f.name, VarVal.Fun p.1) :: env) (some p.1) fs
        else Except.error "assertion failed: *return_type == RepType::Word"
      else Except.error "assertion failed: args.is_empty()"
    else
      declFuns ctx mainId p.2 ((f.name, VarVal.Fun p.1) :: env) mainOpt fs

/-- `init_module_env` of `codegen.rs`: declare the built-ins as imported
    data, then the functions as local functions, and resolve the main
    function id (`expect("Can't find main function")`). -/
def init_module_env (ctx : Ctx) (m : Module) (funs : List LFun) (mainId : Nat) :
    Except String (Env × Module × Nat) :=
  let bi := declBuiltins ctx [] m ctx.builtins
  match declFuns ctx mainId bi.2 bi.1 none funs with
  | Except.error msg => Except.error msg
  | Except.ok (none, _, _) => Except.error "Can't find main function"
  | Except.ok (some mid, env, m') => Except.ok (env, m', mid)

/-- `codegen_expr` of `codegen.rs`: generates code for one `lower::Expr`
    right-hand side, returning the block that control ends up in, the
    value of the expression (if any), and the updated `Ctx` (fresh
    uniqs) and builder state.  The two `panic!` sites are modelled as
    `Except.error`. -/
def codegenExpr (ctx : Ctx) (block : Nat) (fb : FB) (env : Env) (malloc : Nat) :
    LExpr → Except String (Nat × Option Nat × Ctx × FB)
  | LExpr.Atom Atom.Unit =>
    let p := fb.emit (EInstr.iconst CLType.I64 0)
    Except.ok (block, some p.1, ctx, p.2)
  | LExpr.Atom (Atom.Int i) =>
    let p := fb.emit (EInstr.iconst CLType.I64 i)
    Except.ok (block, some p.1, ctx, p.2)
  | LExpr.Atom (Atom.Float f) =>
    let p := fb.emit (EInstr.f64const f)
    Except.ok (block, some p.1, ctx, p.2)
  | LExpr.Atom (Atom.Var v) =>
    let p := useVar ctx fb env v
    Except.ok (block, some p.1, ctx, p.2)
  | LExpr.IBinOp op a1 a2 =>
    let p1 := useVar ctx fb env a1
    let p2 := useVar ctx p1.2 env a2
    let pv := p2.2.emit
      (match op with
       | IntBinOp.Add => EInstr.iadd p1.1 p2.1
       | IntBinOp.Sub => EInstr.isub p1.1 p2.1
       | IntBinOp.Mul => EInstr.imul p1.1 p2.1
       | IntBinOp.Div => EInstr.sdiv p1.1 p2.1)
    Except.ok (block, some pv.1, ctx, pv.2)
  | LExpr.FBinOp op a1 a2 =>
    let p1 := useVar ctx fb env a1
    let p2 := useVar ctx p1.2 env a2
    let pv := p2.2.emit
      (match op with
       | FloatBinOp.Add => EInstr.fadd p1.1 p2.1
       | FloatBinOp.Sub => EInstr.fsub p1.1 p2.1
       | FloatBinOp.Mul => EInstr.fmul p1.1 p2.1
       | FloatBinOp.Div => EInstr.fdiv p1.1 p2.1)
    Except.ok (block, some pv.1, ctx, pv.2)
  | LExpr.Neg v =>
    let p := useVar ctx fb env v
    let pv := p.2.emit (EInstr.ineg p.1)
    Except.ok (block, some pv.1, ctx, pv.2)
  | LExpr.FNeg v =>
    let p := useVar ctx fb env v
    let pv := p.2.emit (EInstr.fneg p.1)
    Except.ok (block, some pv.1, ctx, pv.2)
  | LExpr.App fn args retTy =>
    let funSig : Sig :=
      ⟨args.map (fun a => rep_type_abi (ctx.varRep a)),
       [rep_type_abi retTy], CallConv.SystemV⟩
    let ps := fb.importSignature funSig
    let pc := useVar ctx ps.2 env fn
    let pa := useVarList ctx env pc.2 args
    let pcall := pa.2.emit (EInstr.callIndirect ps.1 pc.1 pa.1)
    Except.ok (block, some pcall.1, ctx, pcall.2)
  | LExpr.Tuple len =>
    let p1 := fb.emit (EInstr.iconst CLType.I64 (Int.ofNat (len * 8)))
    let p2 := p1.2.emit (EInstr.call malloc [p1.1])
    Except.ok (block, some p2.1, ctx, p2.2)
  | LExpr.TuplePut t idx v =>
    let p1 := useVar ctx fb env t
    let p2 := useVar ctx p1.2 env v
    let fb2 := p2.2.emitNoVal (EInstr.store p2.1 p1.1 (Int.ofNat (idx * 8)))
    Except.ok (block, none, ctx, fb2)
  | LExpr.TupleGet t idx =>
    match ctx.varTy t with
    | Ty.Tuple tys =>
      match tys[idx]? with
      | none => Except.error "index out of bounds"
      | some elemTy =>
        let p := useVar ctx fb env t
        let pv := p.2.emit
          (EInstr.load (rep_type_abi (repTypeOfTy elemTy)) p.1 (Int.ofNat (idx * 8)))
        Except.ok (block, some pv.1, ctx, pv.2)
    | Ty.Fun _ _ =>
      let p := useVar ctx fb env t
      let pv := p.2.emit (EInstr.load CLType.I64 p.1 (Int.ofNat (idx * 8)))
      Except.ok (block, some pv.1, ctx, pv.2)
    | _ => Except.error "Non-tuple in tuple position"
  | LExpr.ArrayAlloc len elem =>
    let pl := useVar ctx fb env len
    let pws := pl.2.emit (EInstr.iconst CLType.I64 8)
    let psz := pws.2.emit (EInstr.imul pl.1 pws.1)
    let pm := psz.2.emit (EInstr.call malloc [psz.1])
    let pe := useVar ctx pm.2 env elem
    let pu0 := ctx.freshUniq
    let fb1 := pe.2.declareVar pu0.1 CLType.I64
    let pb := fb1.emit (EInstr.iadd pm.1 psz.1)
    let fb2 := pb.2.defVar pu0.1 pb.1
    let pb1 := fb2.createBlock
    let pb2 := pb1.2.createBlock
    let pb3 := pb2.2.createBlock
    let pu1 := pu0.2.freshUniq
    let fb3 := pb3.2.declareVar pu1.1 CLType.I64
    let fb4 := fb3.defVar pu1.1 pm.1
    let fb5 := fb4.emitNoVal (EInstr.jump pb1.1)
    let fb6 := fb5.sealBlock block
    let fb7 := fb6.switchToBlock pb1.1
    let pidx := fb7.useVarB pu1.1
    let fb8 := pidx.2.emitNoVal (EInstr.brIcmp IntCC.Equal pidx.1 pb.1 pb3.1)
    let fb9 := fb8.emitNoVal (EInstr.fallthrough pb2.1)
    let fb10 := fb9.switchToBlock pb2.1
    let fb11 := fb10.emitNoVal (EInstr.store pe.1 pidx.1 0)
    let pws2 := fb11.emit (EInstr.iconst CLType.I64 8)
    let pnext := pws2.2.emit (EInstr.iadd pidx.1 pws2.1)
    let fb12 := pnext.2.defVar pu1.1 pnext.1
    let fb13 := fb12.emitNoVal (EInstr.jump pb1.1)
    let fb14 := fb13.sealBlock pb1.1
    let fb15 := fb14.sealBlock pb2.1
    let fb16 := fb15.switchToBlock pb3.1
    Except.ok (pb3.1, some pm.1, pu1.2, fb16)
  | LExpr.ArrayGet arr idx =>
    match ctx.varTy arr with
    | Ty.Array elemTy =>
      let p1 := useVar ctx fb env arr
      let p2 := useVar ctx p1.2 env idx
      let pws := p2.2.emit (EInstr.iconst CLType.I64 8)
      let poff := pws.2.emit (EInstr.imul p2.1 pws.1)
      let pv := poff.2.emit
        (EInstr.loadComplex (rep_type_abi (repTypeOfTy elemTy)) [p1.1, poff.1] 0)
      Except.ok (block, some pv.1, ctx, pv.2)
    | _ => Except.error "Non-array in array location"
  | LExpr.ArrayPut arr idx v =>
    let p1 := useVar ctx fb env arr
    let p2 := useVar ctx p1.2 env idx
    let p3 := useVar ctx p2.2 env v
    let pws := p3.2.emit (EInstr.iconst CLType.I64 8)
    let poff := pws.2.emit (EInstr.imul p2.1 pws.1)
    let fb2 := poff.2.emitNoVal (EInstr.storeComplex p3.1 [p1.1, poff.1] 0)
    let pret := fb2.emit (EInstr.iconst CLType.I64 0)
    Except.ok (block, some pret.1, ctx, pret.2)

theorem getElem?_append_some {α : Type} {l1 l2 : List α} {n : Nat} {a : α}
    (h : l1[n]? = some a) : (l1 ++ l2)[n]? = some a := by
  induction l1 generalizing n with
  | nil => cases h
  | cons b bs ih =>
    cases n with
    | zero => simp only [List.cons_append, List.getElem?_cons_zero] at h ⊢; exact h
    | succ k =>
      simp only [List.cons_append, List.getElem?_cons_succ] at h ⊢
      exact ih h

theorem getElem?_append_length {α : Type} (l : List α) (a : α) :
    (l ++ [a])[l.length]? = some a := by
  induction l with
  | nil => rfl
  | cons b bs ih => simp

/-- The invariant of the built-in loop: a var already bound to an
    imported data declaration carrying its symbol name stays so bound. -/
theorem declBuiltins_inv (ctx : Ctx) :
    ∀ (bs : List (Nat × Nat)) (env : Env) (m : Module) (x : Nat),
      (∃ did, envLookup env x = some (VarVal.Data did) ∧
        m.datas[did]? = some ⟨ctx.varSymbol x, Linkage.Import, false, false⟩) →
      ∃ did, envLookup (declBuiltins ctx env m bs).1 x = some (VarVal.Data did) ∧
        (declBuiltins ctx env m bs).2.datas[did]? =
          some ⟨ctx.varSymbol x, Linkage.Import, false, false⟩ := by
  intro bs
  induction bs with
  | nil => intro env m x h; exact h
  | cons b bs ih =>
    intro env m x h
    simp only [declBuiltins, Module.declareData]
    apply ih
    obtain ⟨did, h1, h2⟩ := h
    by_cases hx : b.1 = x
    · refine ⟨m.datas.length, ?_, ?_⟩
      · simp [envLookup, hx]
      · rw [← hx]
        exact getElem?_append_length m.datas _
    · exact ⟨did, by simp [envLookup, hx, h1], getElem?_append_some h2⟩

/-- Every built-in processed by the loop ends up bound to an imported
    data declaration carrying its symbol name. -/
theorem declBuiltins_mem (ctx : Ctx) :
    ∀ (bs : List (Nat × Nat)) (env : Env) (m : Module) (b : Nat × Nat),
      b ∈ bs →
      ∃ did, envLookup (declBuiltins ctx env m bs).1 b.1 = some (VarVal.Data did) ∧
        (declBuiltins ctx env m bs).2.datas[did]? =
          some ⟨ctx.varSymbol b.1, Linkage.Import, false, false⟩ := by
  intro bs
  induction bs with
  | nil => intro env m b h; cases h
  | cons hd tl ih =>
    intro env m b hb
    rcases List.mem_cons.mp hb with heq | htl
    · subst heq
      simp only [declBuiltins, Module.declareData]
      apply declBuiltins_inv
      exact ⟨m.datas.length, by simp [envLookup], getElem?_append_length m.datas _⟩
    · simp only [declBuiltins, Module.declareData]
      exact ih _ _ _ htl

/-- The built-in loop declares no functions. -/
theorem declBuiltins_funcs (ctx : Ctx) :
    ∀ (bs : List (Nat × Nat)) (env : Env) (m : Module),
      (declBuiltins ctx env m bs).2.funcs = m.funcs := by
  intro bs
  induction bs with
  | nil => intro env m; rfl
  | cons b bs ih =>
    intro env m
    simp only [declBuiltins, Module.declareData]
    exact ih _ _

/-- The function loop declares no data. -/
theorem declFuns_datas (ctx : Ctx) (mainId : Nat) :
    ∀ (fs : List LFun) (m : Module) (env : Env) (mo : Option Nat)
      (r : Option Nat × Env × Module),
      declFuns ctx mainId m env mo fs = Except.ok r → r.2.2.datas = m.datas := by
  intro fs
  induction fs with
  | nil =>
    intro m env mo r h
    simp only [declFuns] at h
    cases h
    rfl
  | cons f fs ih =>
    intro m env mo r h
    simp only [declFuns, Module.declareFunction] at h
    by_cases h1 : f.name = mainId
    · rw [if_pos h1] at h
      by_cases h2 : f.args = []
      · rw [if_pos h2] at h
        by_cases h3 : f.returnType = RepType.Word
        · rw [if_pos h3] at h
          simpa using ih _ _ _ _ h
        · rw [if_neg h3] at h; cases h
      · rw [if_neg h2] at h; cases h
    · rw [if_neg h1] at h
      simpa using ih _ _ _ _ h

/-- The function loop binds only function names in the env: lookups of
    other vars are unchanged. -/
theorem declFuns_lookup (ctx : Ctx) (mainId : Nat) :
    ∀ (fs : List LFun) (m : Module) (env : Env) (mo : Option Nat)
      (r : Option Nat × Env × Module) (x : Nat),
      declFuns ctx mainId m env mo fs = Except.ok r →
      (∀ f ∈ fs, f.name ≠ x) →
      envLookup r.2.1 x = envLookup env x := by
  intro fs
  induction fs with
  | nil =>
    intro m env mo r x h _
    simp only [declFuns] at h
    cases h
    rfl
  | cons f fs ih =>
    intro m env mo r x h hx
    have hfx : f.name ≠ x := hx f (by simp)
    have hrest : ∀ g ∈ fs, g.name ≠ x := fun g hg => hx g (by simp [hg])
    simp only [declFuns, Module.declareFunction] at h
    by_cases h1 : f.name = mainId
    · rw [if_pos h1] at h
      by_cases h2 : f.args = []
      · rw [if_pos h2] at h
        by_cases h3 : f.returnType = RepType.Word
        · rw [if_pos h3] at h
          rw [ih _ _ _ _ _ h hrest]
          simp [envLookup, hfx]
        · rw [if_neg h3] at h; cases h
      · rw [if_neg h2] at h; cases h
    · rw [if_neg h1] at h
      rw [ih _ _ _ _ _ h hrest]
      simp [envLookup, hfx]

/-- Every function declaration added by the function loop has `Local`
    linkage. -/
theorem declFuns_local (ctx : Ctx) (mainId : Nat) :
    ∀ (fs : List LFun) (m : Module) (env : Env) (mo : Option Nat)
      (r : Option Nat × Env × Module),
      declFuns ctx mainId m env mo fs = Except.ok r →
      ∀ fd ∈ r.2.2.funcs, fd ∈ m.funcs ∨ fd.linkage = Linkage.Local := by
  intro fs
  induction fs with
  | nil =>
    intro m env mo r h fd hfd
    simp only [declFuns] at h
    cases h
    exact Or.inl hfd
  | cons f fs ih =>
    intro m env mo r h fd hfd
    have step : ∀ (sig : Sig),
        fd ∈ ({ m with funcs := m.funcs ++ [⟨ctx.varName f.name, Linkage.Local, sig⟩] } : Module).funcs →
        fd ∈ m.funcs ∨ fd.linkage = Linkage.Local := by
      intro sig hmem
      simp only [List.mem_append, List.mem_singleton] at hmem
      rcases hmem with hm | he
      · exact Or.inl hm
      · right; rw [he]
    simp only [declFuns, Module.declareFunction] at h
    by_cases h1 : f.name = mainId
    · rw [if_pos h1] at h
      by_cases h2 : f.args = []
      · rw [if_pos h2] at h
        by_cases h3 : f.returnType = RepType.Word
        · rw [if_pos h3] at h
          rcases ih _ _ _ _ h fd hfd with hm | hl
          · exact step _ hm
          · exact Or.inr hl
        · rw [if_neg h3] at h; cases h
      · rw [if_neg h2] at h; cases h
    · rw [if_neg h1] at h
      rcases ih _ _ _ _ h fd hfd with hm | hl
      · exact step _ hm
      · exact Or.inr hl

/-- If no function is named `mainId`, the function loop succeeds but
    leaves the main id unresolved. -/
theorem declFuns_none (ctx : Ctx) (mainId : Nat) :
    ∀ (fs : List LFun) (m : Module) (env : Env),
      (∀ f ∈ fs, f.name ≠ mainId) →
      ∃ env' m', declFuns ctx mainId m env none fs = Except.ok (none, env', m') := by
  intro fs
  induction fs with
  | nil => intro m env _; exact ⟨env, m, rfl⟩
  | cons f fs ih =>
    intro m env hx
    have hf : f.name ≠ mainId := hx f (by simp)
    have hrest : ∀ g ∈ fs, g.name ≠ mainId := fun g hg => hx g (by simp [hg])
    obtain ⟨env', m', h⟩ := ih _ ((f.name, VarVal.Fun m.funcs.length) :: env) hrest
    refine ⟨env', m', ?_⟩
    simp only [declFuns, Module.declareFunction, if_neg hf]
    exact h

/-- If the function loop succeeds, every function named `mainId` in its
    input had an empty argument list and `Word` return type (otherwise
    one of the assertions fails). -/
theorem declFuns_main (ctx : Ctx) (mainId : Nat) :
    ∀ (fs : List LFun) (m : Module) (env : Env) (mo : Option Nat)
      (r : Option Nat × Env × Module),
      declFuns ctx mainId m env mo fs = Except.ok r →
      ∀ f ∈ fs, f.name = mainId → f.args = [] ∧ f.returnType = RepType.Word := by
  intro fs
  induction fs with
  | nil => intro m env mo r _ f hf; cases hf
  | cons g fs ih =>
    intro m env mo r h f hf hname
    simp only [declFuns, Module.declareFunction] at h
    by_cases h1 : g.name = mainId
    · rw [if_pos h1] at h
      by_cases h2 : g.args = []
      · rw [if_pos h2] at h
        by_cases h3 : g.returnType = RepType.Word
        · rw [if_pos h3] at h
          rcases List.mem_cons.mp hf with heq | htl
          · subst heq; exact ⟨h2, h3⟩
          · exact ih _ _ _ _ h f htl hname
        · rw [if_neg h3] at h; cases h
      · rw [if_neg h2] at h; cases h
    · rw [if_neg h1] at h
      rcases List.mem_cons.mp hf with heq | htl
      · subst heq; exact absurd hname h1
      · exact ih _ _ _ _ h f htl hname

/-- When every argument is bound as a function argument, using the
    argument list emits nothing and returns the argument values. -/
theorem useVarList_args (ctx : Ctx) (env : Env) (vals : Nat → Nat) :
    ∀ (args : List Nat) (fb : FB),
      (∀ a ∈ args, envLookup env a = some (VarVal.Arg (vals a))) →
      useVarList ctx env fb args = (args.map vals, fb) := by
  intro args
  induction args with
  | nil => intro fb _; rfl
  | cons a rest ih =>
    intro fb h
    have ha := h a (by simp)
    have hrest : ∀ b ∈ rest, envLookup env b = some (VarVal.Arg (vals b)) :=
      fun b hb => h b (by simp [hb])
    simp only [useVarList, useVar, ha, List.map_cons]
    rw [ih fb hrest]

/-- Claim C10: if no function in `funs` is named `main_id`,
    `init_module_env` fails with "Can't find main function" (the
    `expect` panic) instead of producing a module; and on success every
    function named `main_id` passed both assertions: empty argument
    list and `Word` return type. -/
theorem claim_C10 (ctx : Ctx) (m : Module) (funs : List LFun) (mainId : Nat) :
    ((∀ f ∈ funs, f.name ≠ mainId) →
      init_module_env ctx m funs mainId = Except.error "Can't find main function") ∧
    (∀ env m' mid, init_module_env ctx m funs mainId = Except.ok (env, m', mid) →
      ∀ f ∈ funs, f.name = mainId → f.args = [] ∧ f.returnType = RepType.Word) := by
  constructor
  · intro hno
    obtain ⟨env', m', h⟩ :=
      declFuns_none ctx mainId funs (declBuiltins ctx [] m ctx.builtins).2
        (declBuiltins ctx [] m ctx.builtins).1 hno
    simp only [init_module_env, h]
  · intro env m' mid h f hf hname
    simp only [init_module_env] at h
    cases hd : declFuns ctx mainId (declBuiltins ctx [] m ctx.builtins).2
        (declBuiltins ctx [] m ctx.builtins).1 none funs with
    | error msg => rw [hd] at h; cases h
    | ok r =>
      rw [hd] at h
      exact declFuns_main ctx mainId funs _ _ _ _ hd f hf hname

/-- Witness for claim C10 at concrete inputs: with no functions at all,
    initialization fails with the missing-main error; with a single
    well-formed main function it succeeds, and that function has no
    arguments and `Word` return type. -/
theorem claim_C10_witness :
    (init_module_env
        ⟨[], fun _ => "b", fun _ => "f", fun _ => RepType.Word, fun _ => Ty.Int,
         fun v => v, 0⟩
        ⟨[], []⟩ [] 7 = Except.error "Can't find main function") ∧
    ((⟨7, [], RepType.Word⟩ : LFun).args = [] ∧
      (⟨7, [], RepType.Word⟩ : LFun).returnType = RepType.Word) := by
  constructor
  · exact (claim_C10 _ _ _ _).1 (by intro f hf; cases hf)
  · exact (claim_C10
      ⟨[], fun _ => "b", fun _ => "f", fun _ => RepType.Word, fun _ => Ty.Int,
       fun v => v, 0⟩
      ⟨[], []⟩ [⟨7, [], RepType.Word⟩] 7).2 [(7, VarVal.Fun 0)]
      ⟨[], [⟨"f", Linkage.Local, ⟨[], [CLType.I64], CallConv.SystemV⟩⟩]⟩ 0
      rfl ⟨7, [], RepType.Word⟩ (by simp) rfl

/-- Claim C7: (1) on successful module initialization every built-in
    registered in the `Ctx` (not shadowed by a function name) is bound
    to an imported *data* declaration carrying its symbol name, and
    every function declaration the initialization adds has `Local`
    linkage (so no built-in is an imported function); (2) at a use site
    a `Data`-bound variable is materialized by a `global_value`
    instruction; (3) an application whose callee is `Data`-bound emits
    an imported signature, the `global_value` materialization, and an
    indirect call through that materialized address. -/
theorem claim_C7 :
    (∀ (ctx : Ctx) (m : Module) (funs : List LFun) (mainId : Nat)
       (env : Env) (m' : Module) (mid : Nat),
      init_module_env ctx m funs mainId = Except.ok (env, m', mid) →
      (∀ b ∈ ctx.builtins, (∀ f ∈ funs, f.name ≠ b.1) →
        ∃ did, envLookup env b.1 = some (VarVal.Data did) ∧
          m'.datas[did]? = some ⟨ctx.varSymbol b.1, Linkage.Import, false, false⟩) ∧
      (∀ fd ∈ m'.funcs, fd ∈ m.funcs ∨ fd.linkage = Linkage.Local)) ∧
    (∀ (ctx : Ctx) (fb : FB) (env : Env) (var did : Nat),
      envLookup env var = some (VarVal.Data did) →
      useVar ctx fb env var =
        (fb.nextVal,
         { fb with
           nextVal := fb.nextVal + 1,
           events := fb.events ++
             [Event.inst fb.curBlock (some fb.nextVal)
               (EInstr.globalValue CLType.I64 did)] })) ∧
    (∀ (ctx : Ctx) (block : Nat) (fb : FB) (env : Env) (malloc : Nat)
       (fn : Nat) (args : List Nat) (retTy : RepType) (did : Nat) (vals : Nat → Nat),
      envLookup env fn = some (VarVal.Data did) →
      (∀ a ∈ args, envLookup env a = some (VarVal.Arg (vals a))) →
      codegenExpr ctx block fb env malloc (LExpr.App fn args retTy) =
        Except.ok (block, some (fb.nextVal + 1), ctx,
          { fb with
            nextSig := fb.nextSig + 1,
            nextVal := fb.nextVal + 2,
            events := fb.events ++
              [Event.importSig fb.nextSig
                 ⟨args.map (fun a => rep_type_abi (ctx.varRep a)),
                  [rep_type_abi retTy], CallConv.SystemV⟩,
               Event.inst fb.curBlock (some fb.nextVal)
                 (EInstr.globalValue CLType.I64 did),
               Event.inst fb.curBlock (some (fb.nextVal + 1))
                 (EInstr.callIndirect fb.nextSig fb.nextVal (args.map vals))] })) := by
  refine ⟨?_, ?_, ?_⟩
  · intro ctx m funs mainId env m' mid h
    simp only [init_module_env] at h
    cases hd : declFuns ctx mainId (declBuiltins ctx [] m ctx.builtins).2
        (declBuiltins ctx [] m ctx.builtins).1 none funs with
    | error msg => rw [hd] at h; cases h
    | ok r =>
      rw [hd] at h
      obtain ⟨mo, env0, m0⟩ := r
      cases mo with
      | none => cases h
      | some mid0 =>
        have hdat : m0.datas = (declBuiltins ctx [] m ctx.builtins).2.datas :=
          declFuns_datas ctx mainId funs _ _ _ _ hd
        have hloc : ∀ fd ∈ m0.funcs,
            fd ∈ (declBuiltins ctx [] m ctx.builtins).2.funcs ∨
              fd.linkage = Linkage.Local :=
          declFuns_local ctx mainId funs _ _ _ _ hd
        have hlk : ∀ x, (∀ f ∈ funs, f.name ≠ x) →
            envLookup env0 x = envLookup (declBuiltins ctx [] m ctx.builtins).1 x :=
          fun x hx => declFuns_lookup ctx mainId funs _ _ _ _ x hd hx
        cases h
        constructor
        · intro b hb hdisj
          obtain ⟨did, h1, h2⟩ := declBuiltins_mem ctx ctx.builtins [] m b hb
          refine ⟨did, ?_, ?_⟩
          · rw [hlk b.1 hdisj]
            exact h1
          · rw [hdat]
            exact h2
        · intro fd hfd
          rcases hloc fd hfd with hm | hl
          · rw [declBuiltins_funcs ctx ctx.builtins [] m] at hm
            exact Or.inl hm
          · exact Or.inr hl
  · intro ctx fb env var did h
    simp [useVar, h, FB.emit]
  · intro ctx block fb env malloc fn args retTy did vals hfn hargs
    simp only [codegenExpr, FB.importSignature, useVar, hfn, FB.emit]
    rw [useVarList_args ctx env vals args _ hargs]
    simp [FB.emit, List.append_assoc]

/-- A concrete `Ctx` with one registered built-in (var id 5, symbol
    `print_int`), used in witnesses. -/
def ctxW : Ctx :=
  ⟨[(5, 0)], fun _ => "print_int", fun _ => "f", fun _ => RepType.Word,
   fun _ => Ty.Int, fun v => v, 0⟩

/-- A one-function program for the witnesses: function 7 with no
    arguments, `Word` return type. -/
def funsW : List LFun := [⟨7, [], RepType.Word⟩]

/-- The env produced by initializing `ctxW`/`funsW`. -/
def envW : Env := [(7, VarVal.Fun 0), (5, VarVal.Data 0)]

/-- The module produced by initializing `ctxW`/`funsW`. -/
def modW : Module :=
  ⟨[⟨"print_int", Linkage.Import, false, false⟩],
   [⟨"f", Linkage.Local, ⟨[], [CLType.I64], CallConv.SystemV⟩⟩]⟩

/-- A fresh builder state. -/
def fbW : FB := ⟨0, 0, 0, 0, []⟩

/-- An env binding var 9 to argument value 3 and var 5 to data object 0. -/
def appEnvW : Env := [(9, VarVal.Arg 3), (5, VarVal.Data 0)]

/-- Witness for claim C7 at concrete inputs: initializing `ctxW` with
    `funsW` binds the built-in to imported data 0 of `modW` and declares
    only a `Local` function; using it emits `global_value`; applying it
    emits the signature import, the `global_value`, and the indirect
    call. -/
theorem claim_C7_witness :
    ((∃ did, envLookup envW 5 = some (VarVal.Data did) ∧
        modW.datas[did]? = some ⟨"print_int", Linkage.Import, false, false⟩) ∧
      ((⟨"f", Linkage.Local, ⟨[], [CLType.I64], CallConv.SystemV⟩⟩ : FuncDecl) ∈
          (⟨[], []⟩ : Module).funcs ∨
        (⟨"f", Linkage.Local, ⟨[], [CLType.I64], CallConv.SystemV⟩⟩ : FuncDecl).linkage =
          Linkage.Local)) ∧
    useVar ctxW fbW envW 5 =
      (0, ⟨1, 0, 0, 0, [Event.inst 0 (some 0) (EInstr.globalValue CLType.I64 0)]⟩) ∧
    codegenExpr ctxW 0 fbW appEnvW 42 (LExpr.App 5 [9] RepType.Word) =
      Except.ok (0, some 1, ctxW,
        ⟨2, 0, 1, 0,
         [Event.importSig 0 ⟨[CLType.I64], [CLType.I64], CallConv.SystemV⟩,
          Event.inst 0 (some 0) (EInstr.globalValue CLType.I64 0),
          Event.inst 0 (some 1) (EInstr.callIndirect 0 0 [3])]⟩) := by
  have h := claim_C7
  refine ⟨⟨?_, ?_⟩, ?_, ?_⟩
  · exact (h.1 ctxW ⟨[], []⟩ funsW 7 envW modW 0 rfl).1 (5, 0) (by simp [ctxW])
      (by intro f hf; simp [funsW] at hf; subst hf; decide)
  · exact (h.1 ctxW ⟨[], []⟩ funsW 7 envW modW 0 rfl).2
      ⟨"f", Linkage.Local, ⟨[], [CLType.I64], CallConv.SystemV⟩⟩ (by simp [modW])
  · exact h.2.1 ctxW fbW envW 5 0 rfl
  · exact h.2.2 ctxW 0 fbW appEnvW 42 5 [9] RepType.Word 0 (fun _ => 3) rfl
      (by intro a ha; simp at ha; subst ha; rfl)

/-- Claim C8: for `ArrayAlloc { len, elem }` with `len` and `elem` bound
    to argument values, `codegen_expr` emits exactly the synthesized
    loop: `malloc(len * 8)` whose result is the array `a`; the bound
    `a + len * 8` kept in a fresh builder variable; a fresh index
    variable initialized to `a`; a jump to the header block, which
    compares the index against the bound with `br_icmp Equal` into the
    continuation block and otherwise falls through to the body block;
    the body stores `elem` at offset 0 of the index, bumps the index by
    the word size, and jumps back to the header; the expression's value
    is `a` and the block handed back is the continuation block. -/
theorem claim_C8 (ctx : Ctx) (block : Nat) (fb : FB) (env : Env) (malloc : Nat)
    (len elem lv ev : Nat)
    (hlen : envLookup env len = some (VarVal.Arg lv))
    (helem : envLookup env elem = some (VarVal.Arg ev)) :
    codegenExpr ctx block fb env malloc (LExpr.ArrayAlloc len elem) =
      Except.ok (fb.nextBlock + 2, some (fb.nextVal + 2),
        { ctx with fresh := ctx.fresh + 1 + 1 },
        { fb with
          nextVal := fb.nextVal + 7,
          nextBlock := fb.nextBlock + 3,
          curBlock := fb.nextBlock + 2,
          events := fb.events ++
            [Event.inst fb.curBlock (some fb.nextVal) (EInstr.iconst CLType.I64 8),
             Event.inst fb.curBlock (some (fb.nextVal + 1)) (EInstr.imul lv fb.nextVal),
             Event.inst fb.curBlock (some (fb.nextVal + 2))
               (EInstr.call malloc [fb.nextVal + 1]),
             Event.declareVar ctx.fresh CLType.I64,
             Event.inst fb.curBlock (some (fb.nextVal + 3))
               (EInstr.iadd (fb.nextVal + 2) (fb.nextVal + 1)),
             Event.defVar ctx.fresh (fb.nextVal + 3),
             Event.createBlock fb.nextBlock,
             Event.createBlock (fb.nextBlock + 1),
             Event.createBlock (fb.nextBlock + 2),
             Event.declareVar (ctx.fresh + 1) CLType.I64,
             Event.defVar (ctx.fresh + 1) (fb.nextVal + 2),
             Event.inst fb.curBlock none (EInstr.jump fb.nextBlock),
             Event.seal block,
             Event.switchTo fb.nextBlock,
             Event.useVar fb.nextBlock (fb.nextVal + 4) (ctx.fresh + 1),
             Event.inst fb.nextBlock none
               (EInstr.brIcmp IntCC.Equal (fb.nextVal + 4) (fb.nextVal + 3)
                 (fb.nextBlock + 2)),
             Event.inst fb.nextBlock none (EInstr.fallthrough (fb.nextBlock + 1)),
             Event.switchTo (fb.nextBlock + 1),
             Event.inst (fb.nextBlock + 1) none (EInstr.store ev (fb.nextVal + 4) 0),
             Event.inst (fb.nextBlock + 1) (some (fb.nextVal + 5))
               (EInstr.iconst CLType.I64 8),
             Event.inst (fb.nextBlock + 1) (some (fb.nextVal + 6))
               (EInstr.iadd (fb.nextVal + 4) (fb.nextVal + 5)),
             Event.defVar (ctx.fresh + 1) (fb.nextVal + 6),
             Event.inst (fb.nextBlock + 1) none (EInstr.jump fb.nextBlock),
             Event.seal fb.nextBlock,
             Event.seal (fb.nextBlock + 1),
             Event.switchTo (fb.nextBlock + 2)] }) := by
  simp only [codegenExpr, useVar, hlen, helem, FB.emit, FB.emitNoVal, FB.createBlock,
    FB.switchToBlock, FB.sealBlock, FB.declareVar, FB.defVar, FB.useVarB, Ctx.freshUniq]
  simp [List.append_assoc]

/-- Witness for claim C8 at a concrete input: the full trace for
    `ArrayAlloc` of vars 1 (length, value 10) and 2 (element, value 20)
    from a fresh builder. -/
theorem claim_C8_witness :
    codegenExpr ctxW 0 fbW [(1, VarVal.Arg 10), (2, VarVal.Arg 20)] 42
        (LExpr.ArrayAlloc 1 2) =
      Except.ok (2, some 2, { ctxW with fresh := ctxW.fresh + 1 + 1 },
        { fbW with
          nextVal := 7,
          nextBlock := 3,
          curBlock := 2,
          events :=
            [Event.inst 0 (some 0) (EInstr.iconst CLType.I64 8),
             Event.inst 0 (some 1) (EInstr.imul 10 0),
             Event.inst 0 (some 2) (EInstr.call 42 [1]),
             Event.declareVar 0 CLType.I64,
             Event.inst 0 (some 3) (EInstr.iadd 2 1),
             Event.defVar 0 3,
             Event.createBlock 0,
             Event.createBlock 1,
             Event.createBlock 2,
             Event.declareVar 1 CLType.I64,
             Event.defVar 1 2,
             Event.inst 0 none (EInstr.jump 0),
             Event.seal 0,
             Event.switchTo 0,
             Event.useVar 0 4 1,
             Event.inst 0 none (EInstr.brIcmp IntCC.Equal 4 3 2),
             Event.inst 0 none (EInstr.fallthrough 1),
             Event.switchTo 1,
             Event.inst 1 none (EInstr.store 20 4 0),
             Event.inst 1 (some 5) (EInstr.iconst CLType.I64 8),
             Event.inst 1 (some 6) (EInstr.iadd 4 5),
             Event.defVar 1 6,
             Event.inst 1 none (EInstr.jump 0),
             Event.seal 0,
             Event.seal 1,
             Event.switchTo 2] }) :=
  claim_C8 ctxW 0 fbW [(1, VarVal.Arg 10), (2, VarVal.Arg 20)] 42 1 2 10 20 rfl rfl

/-! ### Run-time behaviour of the emitted array-initialization loop

Claim C9 is about the execution of the loop whose emission claim C8
establishes.  The loop runs on 64-bit machine words: `imul`/`iadd` wrap
modulo `2 ^ 64`, and the signed length is reinterpreted as an unsigned
word.  The following definitions are modelled from the spec (and the
cranelift instruction semantics): the index after `j` iterations, the
bound, and the loop itself, which exits exactly when the `br_icmp Equal`
comparison succeeds and otherwise stores, bumps the index by 8, and
repeats. -/

/-- Modelled from the spec: the 64-bit word holding the run-time value
    of a signed `i64` (two's-complement reinterpretation). -/
def u64 (x : Int) : Nat := (x % (2 ^ 64 : Int)).toNat

/-- Modelled from the spec: the index value after `j` iterations of the
    loop of claim C8: the array base `a` plus `j` times the word size,
    with 64-bit wraparound. -/
def arrayIdx (a j : Nat) : Nat := (a + 8 * j) % 2 ^ 64

/-- Modelled from the spec: the loop bound of claim C8: the array base
    plus the `imul`-computed byte size `8 * len`, both with 64-bit
    wraparound. -/
def arrayBound (a lenU : Nat) : Nat := (a + (8 * lenU) % 2 ^ 64) % 2 ^ 64

/-- Modelled from the spec: execution of the loop of claim C8, counting
    iterations.  At iteration `j` the `br_icmp Equal` test compares the
    index with the bound and exits (returning the number of store
    iterations performed); otherwise the body runs and the index is
    bumped.  Fuel bounds the number of steps; `none` means the loop ran
    longer than the fuel. -/
def arrayLoop (a lenU : Nat) : Nat → Nat → Option Nat
  | 0, _ => none
  | fuel + 1, j => if arrayIdx a j = arrayBound a lenU then some j else arrayLoop a lenU fuel (j + 1)

/-- The exit test succeeds exactly when the iteration count agrees with
    the length word modulo `2 ^ 61` (since `8 * 2 ^ 61 = 2 ^ 64`). -/
theorem arrayIdx_eq_bound_iff (a L j : Nat) :
    (arrayIdx a j = arrayBound a L) ↔ j % 2 ^ 61 = L % 2 ^ 61 := by
  unfold arrayIdx arrayBound
  have hM : (2 : Nat) ^ 64 = 8 * 2 ^ 61 := by norm_num
  have hb : (a + (8 * L) % 2 ^ 64) % 2 ^ 64 = (a + 8 * L) % 2 ^ 64 := by omega
  rw [hb]
  constructor
  · intro h
    have h2 : a + 8 * j ≡ a + 8 * L [MOD 2 ^ 64] := h
    have h3 : 8 * j ≡ 8 * L [MOD 2 ^ 64] := Nat.ModEq.add_left_cancel' a h2
    rw [hM] at h3
    exact Nat.ModEq.mul_left_cancel' (by norm_num) h3
  · intro h
    have h3 : 8 * j ≡ 8 * L [MOD 8 * 2 ^ 61] :=
      Nat.ModEq.mul_left' 8 (show j ≡ L [MOD 2 ^ 61] from h)
    rw [← hM] at h3
    exact Nat.ModEq.add_left a h3

/-- Running the loop: if the exit test fails for the first `K`
    iterations after `j` and succeeds at `j + K`, the loop exits with
    `j + K`. -/
theorem arrayLoop_run (a L : Nat) :
    ∀ (K j : Nat),
      (∀ i, i < K → arrayIdx a (j + i) ≠ arrayBound a L) →
      arrayIdx a (j + K) = arrayBound a L →
      arrayLoop a L (K + 1) j = some (j + K) := by
  intro K
  induction K with
  | zero =>
    intro j _ hexit
    simp only [Nat.add_zero] at hexit
    simp only [arrayLoop, if_pos hexit, Nat.add_zero]
  | succ K ih =>
    intro j hno hexit
    have h0 : arrayIdx a j ≠ arrayBound a L := by simpa using hno 0 (Nat.succ_pos K)
    have hrec : arrayLoop a L (K + 1) (j + 1) = some (j + 1 + K) :=
      ih (j + 1)
        (fun i hi => by
          simpa [Nat.add_assoc, Nat.add_comm 1 i] using hno (i + 1) (by omega))
        (by
          have h : j + 1 + K = j + (K + 1) := by omega
          rw [h]
          exact hexit)
    calc arrayLoop a L (K + 1 + 1) j = arrayLoop a L (K + 1) (j + 1) := by
          rw [arrayLoop]
          exact if_neg h0
      _ = some (j + (K + 1)) := by
          rw [hrec]
          congr 1
          omega

/-- Claim C9, as stated, is false in its negative-length part: for
    `len = -1` the exit condition `idx == bound` *is* satisfied, at
    iteration `2 ^ 61 - 1` (all arithmetic wraps modulo `2 ^ 64`, and
    `8 * 2 ^ 61 = 2 ^ 64`, so the index revisits the bound after at
    most `2 ^ 61` iterations). -/
theorem claim_C9_counterexample :
    u64 (-1) % 2 ^ 61 = 2 ^ 61 - 1 ∧
    arrayIdx 0 (2 ^ 61 - 1) = arrayBound 0 (u64 (-1)) := by
  constructor <;> decide

/-- Claim C9, amended: the emitted loop always terminates, performing
    exactly `u64 len % 2 ^ 61` store iterations — which equals `len`
    for every non-negative `len < 2 ^ 61`, but is finite (not infinite)
    for negative `len` as well. -/
theorem claim_C9 (a : Nat) (len : Int) :
    arrayLoop a (u64 len) (u64 len % 2 ^ 61 + 1) 0 = some (u64 len % 2 ^ 61) ∧
    (0 ≤ len → len < 2 ^ 61 → u64 len % 2 ^ 61 = len.toNat) := by
  have hK : u64 len % 2 ^ 61 < 2 ^ 61 := Nat.mod_lt _ (by norm_num)
  constructor
  · have h := arrayLoop_run a (u64 len) (u64 len % 2 ^ 61) 0
      (fun i hi => by
        simp only [Nat.zero_add, Ne, arrayIdx_eq_bound_iff]
        intro hc
        rw [Nat.mod_eq_of_lt (lt_trans hi hK)] at hc
        exact Nat.lt_irrefl _ (hc ▸ hi))
      (by
        simp only [Nat.zero_add, arrayIdx_eq_bound_iff]
        exact Nat.mod_mod_of_dvd _ dvd_rfl)
    simpa using h
  · intro h1 h2
    have e61i : (2 : Int) ^ 61 = 2305843009213693952 := by norm_num
    have e64i : (2 : Int) ^ 64 = 18446744073709551616 := by norm_num
    have e61n : (2 : Nat) ^ 61 = 2305843009213693952 := by norm_num
    have hu : u64 len = len.toNat := by
      unfold u64
      rw [Int.emod_eq_of_lt h1 (by omega)]
    rw [hu]
    exact Nat.mod_eq_of_lt (by omega)

/-- Witness for claim C9 at a concrete input: with array base 0 and
    length 3, the loop exits after exactly 3 store iterations. -/
theorem claim_C9_witness :
    arrayLoop 0 (u64 3) (u64 3 % 2 ^ 61 + 1) 0 = some (u64 3 % 2 ^ 61) ∧
    u64 3 % 2 ^ 61 = (3 : Int).toNat :=
  ⟨(claim_C9 0 3).1, (claim_C9 0 3).2 (by decide) (by norm_num)⟩

end Cg
